import Mathlib

/-!
Verification of the CoreX-SF velocity-banking engine
(`src/backend/velocity_engine.py`) against its natural-language
specification.

Modelling conventions, shared by all definitions below:

* Python `Decimal` values are modelled as exact rationals (`ℚ`).
  `Decimal.quantize(Decimal('0.01'), rounding=ROUND_HALF_UP)` is the
  explicit rounding `round2` below (half away from zero, as Python's
  `ROUND_HALF_UP` behaves on signed values); `quantize(Decimal('0.1'))`
  is `round1`.  Unquantized intermediate `Decimal` arithmetic is exact
  to 28 significant digits in Python; we model it as exact rational
  arithmetic.
* `float(...)` conversions performed by the engine when packaging
  result dictionaries are the identity here (the conversion is monotone
  and exact on the magnitudes involved in the claims).
* Presentation-only output fields (title/description strings, date
  display strings, `debt_progress_pct`, `days_shortened` and similar
  impact estimates) are omitted from the result records; every field a
  claim refers to is kept.
* `date.today()`, read by the planner/projector, is lifted to an
  explicit `Date` parameter.
-/

/- `Rat.add` and friends are `@[irreducible]` in Batteries; witnesses and
counterexamples that evaluate the definitions below by `decide` locally re-open
them with `attribute [local semireducible] Rat.add Rat.mul Rat.sub Rat.inv in`. -/

/-- `⌊q⌋` in executable form (`Rat.floor_def : ⌊q⌋ = q.num / q.den`). -/
def qfloor (q : ℚ) : ℤ := q.num / (q.den : ℤ)

theorem qfloor_eq_floor (q : ℚ) : qfloor q = ⌊q⌋ := by
  rw [Rat.floor_def, qfloor]

/-- Rounding to a multiple of `s` (`s > 0`), half away from zero: Python
`Decimal.quantize` with `ROUND_HALF_UP`. -/
def roundMul (s q : ℚ) : ℚ :=
  if 0 ≤ q then (qfloor (q / s + 1/2) : ℚ) * s else -((qfloor (-q / s + 1/2) : ℚ) * s)

theorem roundMul_floor (s q : ℚ) :
    roundMul s q =
      if 0 ≤ q then (⌊q / s + 1/2⌋ : ℤ) * s else -((⌊(-q) / s + 1/2⌋ : ℤ) * s) := by
  rw [roundMul, qfloor_eq_floor, qfloor_eq_floor]

/-- `quantize(Decimal('0.01'), rounding=ROUND_HALF_UP)`. -/
def round2 (q : ℚ) : ℚ := roundMul (1/100) q

/-- `quantize(Decimal('0.1'), rounding=ROUND_HALF_UP)`. -/
def round1 (q : ℚ) : ℚ := roundMul (1/10) q

theorem roundMul_nonneg {s q : ℚ} (hs : 0 < s) (hq : 0 ≤ q) : 0 ≤ roundMul s q := by
  rw [roundMul_floor, if_pos hq]
  have h1 : (0:ℤ) ≤ ⌊q / s + 1/2⌋ := by
    apply Int.floor_nonneg.mpr
    positivity
  positivity

theorem roundMul_mono {s a b : ℚ} (hs : 0 < s) (hab : a ≤ b) :
    roundMul s a ≤ roundMul s b := by
  rw [roundMul_floor, roundMul_floor]
  by_cases ha : 0 ≤ a
  · have hb : 0 ≤ b := le_trans ha hab
    rw [if_pos ha, if_pos hb]
    have h1 : ⌊a / s + 1/2⌋ ≤ ⌊b / s + 1/2⌋ := by
      apply Int.floor_le_floor
      have h2 : a / s ≤ b / s := by
        apply div_le_div_of_nonneg_right hab hs.le
      linarith
    have h3 : ((⌊a / s + 1/2⌋ : ℤ) : ℚ) ≤ ((⌊b / s + 1/2⌋ : ℤ) : ℚ) := by
      exact_mod_cast h1
    nlinarith
  · push_neg at ha
    by_cases hb : 0 ≤ b
    · rw [if_neg (not_le.mpr ha), if_pos hb]
      have hL : -((⌊(-a) / s + 1/2⌋ : ℤ) * s : ℚ) ≤ 0 := by
        have h1 : (0:ℤ) ≤ ⌊(-a) / s + 1/2⌋ := by
          apply Int.floor_nonneg.mpr
          have : 0 ≤ -a / s := div_nonneg (by linarith) hs.le
          linarith
        have h2 : (0:ℚ) ≤ (⌊(-a) / s + 1/2⌋ : ℤ) * s := by positivity
        linarith
      have hR : (0:ℚ) ≤ (⌊b / s + 1/2⌋ : ℤ) * s := by
        have h1 : (0:ℤ) ≤ ⌊b / s + 1/2⌋ := by
          apply Int.floor_nonneg.mpr
          positivity
        positivity
      linarith
    · push_neg at hb
      rw [if_neg (not_le.mpr ha), if_neg (not_le.mpr hb)]
      have h1 : ⌊(-b) / s + 1/2⌋ ≤ ⌊(-a) / s + 1/2⌋ := by
        apply Int.floor_le_floor
        have h2 : -b / s ≤ -a / s := by
          apply div_le_div_of_nonneg_right (by linarith) hs.le
        linarith
      have h3 : ((⌊(-b) / s + 1/2⌋ : ℤ) : ℚ) ≤ ((⌊(-a) / s + 1/2⌋ : ℤ) : ℚ) := by
        exact_mod_cast h1
      nlinarith

theorem round2_nonneg {q : ℚ} (hq : 0 ≤ q) : 0 ≤ round2 q :=
  roundMul_nonneg (by norm_num) hq

theorem round2_mono {a b : ℚ} (hab : a ≤ b) : round2 a ≤ round2 b :=
  roundMul_mono (by norm_num) hab

/-! ## Data model (`DebtAccount`, `VelocityWeapon`, cashflows) -/

/-- `DebtAccount` dataclass (velocity_engine.py, lines 46-67). -/
structure DebtAccount where
  name : String
  balance : ℚ
  interest_rate : ℚ
  min_payment : ℚ
  due_day : ℤ := 15
  closing_day : ℤ := 0
  debt_subtype : String := ""
  credit_limit : ℚ := 0
  is_active : Bool := true
  deriving DecidableEq, Inhabited

/-- `DebtAccount.monthly_rate`: APR/100/12. -/
def DebtAccount.monthly_rate (d : DebtAccount) : ℚ :=
  d.interest_rate / 100 / 12

/-- `DebtAccount.is_revolving`: credit cards, HELOCs and UILs. -/
def DebtAccount.is_revolving (d : DebtAccount) : Bool :=
  d.debt_subtype = "credit_card" || d.debt_subtype = "heloc" || d.debt_subtype = "uil"

/-- `VelocityWeapon` dataclass (lines 69-84). -/
structure VelocityWeapon where
  name : String
  balance : ℚ
  credit_limit : ℚ
  interest_rate : ℚ
  weapon_type : String
  deriving DecidableEq, Inhabited

/-- `VelocityWeapon.available_credit = max(credit_limit - balance, 0)`. -/
def VelocityWeapon.available_credit (w : VelocityWeapon) : ℚ :=
  max (w.credit_limit - w.balance) 0

/-- `VelocityWeapon.daily_rate = APR/100/365`. -/
def VelocityWeapon.daily_rate (w : VelocityWeapon) : ℚ :=
  w.interest_rate / 100 / 365

/-- `CashflowTactical` dataclass (lines 381-387). -/
structure CashflowTactical where
  name : String
  amount : ℚ
  day_of_month : ℤ
  category : String
  deriving DecidableEq, Inhabited

/-! ## Amortization calculator -/

/-- The month-by-month loop of `calculate_months_to_payoff` (lines 171-183):
`while remaining > 0 and months < 600`, accrue unrounded interest, subtract
principal; `fuel = 600 - months` so running out of fuel is the 600-month cap. -/
def payoffLoop (rate payment : ℚ) : ℕ → ℚ → ℕ → ℕ
  | 0, _, months => months
  | fuel + 1, remaining, months =>
    if remaining ≤ 0 then months
    else
      let interest := remaining * rate
      let principal := payment - interest
      if principal ≤ 0 then 600
      else payoffLoop rate payment fuel (remaining - principal) (months + 1)

/-- `calculate_months_to_payoff` (lines 149-183). -/
def calculate_months_to_payoff (balance apr monthly_payment : ℚ) : ℕ :=
  if balance ≤ 0 then 0
  else if monthly_payment ≤ 0 then 600
  else
    let monthly_rate := apr / 100 / 12
    if monthly_payment ≤ balance * monthly_rate then 600
    else payoffLoop monthly_rate monthly_payment 600 balance 0

/-- The accumulation loop of `calculate_total_interest` (lines 244-256): each
month's interest is rounded to cents before being added; the loop breaks
(keeping the interest just added) when the payment no longer covers it. -/
def tiLoop (rate payment : ℚ) : ℕ → ℚ → ℚ → ℚ
  | 0, _, acc => acc
  | fuel + 1, remaining, acc =>
    if remaining ≤ 0 then acc
    else
      let interest := round2 (remaining * rate)
      let principal := payment - interest
      if principal ≤ 0 then acc + interest
      else tiLoop rate payment fuel (remaining - principal) (acc + interest)

/-- `calculate_total_interest` (lines 233-258). -/
def calculate_total_interest (balance apr monthly_payment : ℚ) : ℚ :=
  if balance ≤ 0 ∨ monthly_payment ≤ 0 then 0
  else round2 (tiLoop (apr / 100 / 12) monthly_payment 600 balance 0)

/-- C2: `calculate_months_to_payoff` sentinel behaviour: with a positive
balance, a payment at or below the monthly interest `balance * apr/100/12`
yields exactly 600; a non-positive balance yields 0; with a positive balance a
non-positive payment yields 600. -/
theorem months_to_payoff_sentinels (balance apr monthly_payment : ℚ) :
    (0 < balance → monthly_payment ≤ balance * (apr / 100 / 12) →
      calculate_months_to_payoff balance apr monthly_payment = 600) ∧
    (balance ≤ 0 → calculate_months_to_payoff balance apr monthly_payment = 0) ∧
    (0 < balance → monthly_payment ≤ 0 →
      calculate_months_to_payoff balance apr monthly_payment = 600) := by
  refine ⟨?_, ?_, ?_⟩
  · intro hb hp
    unfold calculate_months_to_payoff
    rw [if_neg (by linarith)]
    by_cases hp0 : monthly_payment ≤ 0
    · rw [if_pos hp0]
    · rw [if_neg hp0, if_pos hp]
  · intro hb
    unfold calculate_months_to_payoff
    rw [if_pos hb]
  · intro hb hp
    unfold calculate_months_to_payoff
    rw [if_neg (by linarith), if_pos hp]

theorem months_to_payoff_sentinels_witness :
    calculate_months_to_payoff 100 24 2 = 600 ∧
    calculate_months_to_payoff (-5) 24 50 = 0 ∧
    calculate_months_to_payoff 100 24 0 = 600 :=
  ⟨(months_to_payoff_sentinels 100 24 2).1 (by norm_num) (by norm_num),
   (months_to_payoff_sentinels (-5) 24 50).2.1 (by norm_num),
   (months_to_payoff_sentinels 100 24 0).2.2 (by norm_num) (by norm_num)⟩

/-- `acc` only grows along the `calculate_total_interest` loop (each month adds
a non-negative rounded interest). -/
theorem tiLoop_le_self {rate payment : ℚ} (hr : 0 ≤ rate) :
    ∀ (fuel : ℕ) (remaining acc : ℚ), acc ≤ tiLoop rate payment fuel remaining acc := by
  intro fuel
  induction fuel with
  | zero => intro remaining acc; simp [tiLoop]
  | succ fuel ih =>
    intro remaining acc
    rw [tiLoop]
    by_cases hrem : remaining ≤ 0
    · rw [if_pos hrem]
    · rw [if_neg hrem]
      push_neg at hrem
      have hint : 0 ≤ round2 (remaining * rate) :=
        round2_nonneg (mul_nonneg hrem.le hr)
      by_cases hp : payment - round2 (remaining * rate) ≤ 0
      · simp only [if_pos hp]
        linarith
      · simp only [if_neg hp]
        calc acc ≤ acc + round2 (remaining * rate) := by linarith
          _ ≤ _ := ih _ _

/-- Coupled dominance of the `calculate_total_interest` loop: with the same
payment, a run at a higher rate keeps a pointwise larger remaining balance and
accumulates at least as much interest, provided the payment strictly covers the
first month's rounded interest at the higher rate. -/
theorem tiLoop_dom {r1 r2 payment B : ℚ} (hr2 : 0 ≤ r2) (hr12 : r2 ≤ r1)
    (hcov : round2 (B * r1) < payment) :
    ∀ (fuel : ℕ) (rem1 rem2 acc1 acc2 : ℚ), rem2 ≤ rem1 → rem1 ≤ B → acc2 ≤ acc1 →
      tiLoop r2 payment fuel rem2 acc2 ≤ tiLoop r1 payment fuel rem1 acc1 := by
  have hr1 : 0 ≤ r1 := le_trans hr2 hr12
  intro fuel
  induction fuel with
  | zero => intro rem1 rem2 acc1 acc2 _ _ hacc; simpa [tiLoop] using hacc
  | succ fuel ih =>
    intro rem1 rem2 acc1 acc2 hrem hrB hacc
    by_cases h1 : rem1 ≤ 0
    · have h2 : rem2 ≤ 0 := le_trans hrem h1
      rw [tiLoop, tiLoop, if_pos h1, if_pos h2]
      exact hacc
    · by_cases h2 : rem2 ≤ 0
      · rw [tiLoop]
        simp only [if_pos h2]
        exact le_trans hacc (tiLoop_le_self hr1 _ _ _)
      · push_neg at h1 h2
        have hi12 : round2 (rem2 * r2) ≤ round2 (rem1 * r1) := by
          apply round2_mono
          calc rem2 * r2 ≤ rem2 * r1 := by nlinarith
            _ ≤ rem1 * r1 := by nlinarith
        have hi1p : round2 (rem1 * r1) < payment := by
          refine lt_of_le_of_lt ?_ hcov
          apply round2_mono
          nlinarith
        have hp1 : ¬ (payment - round2 (rem1 * r1) ≤ 0) := by linarith
        have hp2 : ¬ (payment - round2 (rem2 * r2) ≤ 0) := by
          have := lt_of_le_of_lt hi12 hi1p
          linarith
        rw [tiLoop, tiLoop, if_neg (not_le.mpr h1), if_neg (not_le.mpr h2)]
        simp only [if_neg hp1, if_neg hp2]
        apply ih
        · linarith
        · linarith
        · linarith

attribute [local semireducible] Rat.add Rat.mul Rat.sub Rat.inv in
/-- C5 counterexample: `balance = 1 > 0`, `payment = 1 > 0`,
`apr1 = 0.001 > apr2 = 0`, yet the total interest at the higher APR is not
strictly greater (both round to 0 every month, so they are equal). -/
theorem total_interest_apr_strict_cex :
    (0:ℚ) < 1 ∧ (0:ℚ) < 1 ∧ (0:ℚ) ≤ 0 ∧ (0:ℚ) < 1/1000 ∧
    ¬ (calculate_total_interest 1 0 1 < calculate_total_interest 1 (1/1000) 1) := by
  refine ⟨by norm_num, by norm_num, le_refl 0, by norm_num, ?_⟩
  have h1 : calculate_total_interest 1 0 1 = 0 := by decide
  have h2 : calculate_total_interest 1 (1/1000) 1 = 0 := by decide
  rw [h1, h2]
  exact lt_irrefl 0

/-- C5 (amended): with balance and payment fixed and positive, total interest
is monotone non-decreasing in the APR, provided the payment strictly covers the
first month's rounded interest at the higher APR (without that proviso the
600-month capped run at the lower APR can accumulate more than the immediately
aborted run at the higher APR, and with equal rounded interests the comparison
is an equality rather than strict). -/
theorem total_interest_mono_apr (balance apr1 apr2 payment : ℚ)
    (hb : 0 < balance) (hp : 0 < payment) (h2 : 0 ≤ apr2) (h12 : apr2 < apr1)
    (hcov : round2 (balance * (apr1 / 100 / 12)) < payment) :
    calculate_total_interest balance apr2 payment ≤
      calculate_total_interest balance apr1 payment := by
  unfold calculate_total_interest
  rw [if_neg (by push_neg; constructor <;> linarith),
      if_neg (by push_neg; constructor <;> linarith)]
  apply round2_mono
  apply tiLoop_dom (by positivity) _ hcov 600 balance balance 0 0 le_rfl le_rfl le_rfl
  have : apr2 / 100 / 12 ≤ apr1 / 100 / 12 := by linarith
  exact this

attribute [local semireducible] Rat.add Rat.mul Rat.sub Rat.inv in
theorem total_interest_mono_apr_witness :
    calculate_total_interest 10000 12 300 ≤ calculate_total_interest 10000 24 300 :=
  total_interest_mono_apr 10000 24 12 300 (by norm_num) (by norm_num) (by norm_num)
    (by norm_num) (by decide)

/-! ## Opportunity detector: debt-health alerts -/

/-- One entry of the list returned by `detect_debt_alerts` (lines 280-377).
Only the fields the claims refer to are kept (`severity`, `debt_name`); the
message/recommendation strings and the numeric `details` payload are
presentation-only. -/
structure DebtAlert where
  severity : String
  debt_name : String
  deriving DecidableEq, Inhabited

/-- `severity_order` dict (line 374): critical 0, warning 1, caution 2,
anything else 3. -/
def severity_order (sv : String) : ℕ :=
  if sv = "critical" then 0 else if sv = "warning" then 1 else if sv = "caution" then 2 else 3

/-- The per-debt body of the `detect_debt_alerts` loop: at most one alert per
debt, checking critical, then warning, then caution, each `continue` skipping
the lower checks. -/
def alertFor (d : DebtAccount) : Option DebtAlert :=
  if d.balance ≤ 0 then none
  else
    let monthly_interest := round2 (d.balance * (d.interest_rate / 100) / 12)
    if d.min_payment ≤ monthly_interest then some ⟨"critical", d.name⟩
    else
      let principal_portion := d.min_payment - monthly_interest
      let principal_pct := round1 (principal_portion / d.min_payment * 100)
      if principal_pct < 10 then some ⟨"warning", d.name⟩
      else
        let months := calculate_months_to_payoff d.balance d.interest_rate d.min_payment
        if 360 < months then some ⟨"caution", d.name⟩ else none

/-- `detect_debt_alerts` (lines 280-377): scan each debt in order, then sort by
severity (Python's stable sort; `insertionSort` with `≤` on ranks is stable). -/
def detect_debt_alerts (debts : List DebtAccount) : List DebtAlert :=
  List.insertionSort (fun a b => severity_order a.severity ≤ severity_order b.severity)
    (debts.filterMap alertFor)

theorem alertFor_name {d : DebtAccount} {a : DebtAlert} (h : alertFor d = some a) :
    a.debt_name = d.name := by
  simp only [alertFor] at h
  split at h
  · exact absurd h (by simp)
  · split at h
    · cases Option.some.inj h; rfl
    · split at h
      · cases Option.some.inj h; rfl
      · split at h
        · cases Option.some.inj h; rfl
        · exact absurd h (by simp)

theorem countP_filterMap_alert (l : List DebtAccount) (n : String) :
    (l.filterMap alertFor).countP (fun a => a.debt_name == n) ≤
      l.countP (fun d => d.name == n) := by
  induction l with
  | nil => simp
  | cons d l ih =>
    rw [List.filterMap_cons, List.countP_cons]
    cases halert : alertFor d with
    | none =>
      exact le_trans ih (Nat.le_add_right _ _)
    | some a =>
      rw [List.countP_cons]
      have hname : a.debt_name = d.name := alertFor_name halert
      by_cases hn : d.name = n
      · have : (a.debt_name == n) = true := by rw [hname, hn]; simp
        simp only [this, if_pos rfl]
        have : (d.name == n) = true := by rw [hn]; simp
        simp only [this, if_pos rfl]
        omega
      · have h1 : (a.debt_name == n) = false := by
          rw [hname]; exact beq_eq_false_iff_ne.mpr hn
        have h2 : (d.name == n) = false := beq_eq_false_iff_ne.mpr hn
        simp only [h1, h2]
        omega

/-- C7: `detect_debt_alerts` emits at most one alert per debt (for any name,
no more alerts naming it than there are debts with that name), and the output
is sorted critical → warning → caution.  The hypothesis `0 ≤ interest_rate`
restates the data-model invariant under which the Python code is total (a
negative APR together with `min_payment = 0` would raise a zero-division
error in the warning check). -/
theorem detect_debt_alerts_spec (debts : List DebtAccount) (n : String)
    (_hr : ∀ d ∈ debts, 0 ≤ d.interest_rate) :
    (detect_debt_alerts debts).countP (fun a => a.debt_name == n) ≤
        debts.countP (fun d => d.name == n) ∧
      (detect_debt_alerts debts).Pairwise
        (fun a b => severity_order a.severity ≤ severity_order b.severity) := by
  constructor
  · have hperm := List.perm_insertionSort
      (fun a b : DebtAlert => severity_order a.severity ≤ severity_order b.severity)
      (debts.filterMap alertFor)
    rw [detect_debt_alerts, hperm.countP_eq]
    exact countP_filterMap_alert debts n
  · haveI : IsTotal DebtAlert
        (fun a b => severity_order a.severity ≤ severity_order b.severity) :=
      ⟨fun a b => le_total _ _⟩
    haveI : IsTrans DebtAlert
        (fun a b => severity_order a.severity ≤ severity_order b.severity) :=
      ⟨fun _ _ _ h1 h2 => le_trans h1 h2⟩
    exact List.sorted_insertionSort _ _

/-- Concrete two-debt snapshot for the C7 witness (the spec's §8 critical-alert
scenario plus a healthy auto loan). -/
def alertsWitnessDebts : List DebtAccount :=
  [{ name := "Visa", balance := 50000, interest_rate := 22, min_payment := 500 },
   { name := "Car", balance := 1000, interest_rate := 5, min_payment := 100 }]

theorem detect_debt_alerts_spec_witness :
    (detect_debt_alerts alertsWitnessDebts).countP (fun a => a.debt_name == "Visa") ≤
      alertsWitnessDebts.countP (fun d => d.name == "Visa") ∧
    (detect_debt_alerts alertsWitnessDebts).Pairwise
      (fun a b => severity_order a.severity ≤ severity_order b.severity) :=
  detect_debt_alerts_spec alertsWitnessDebts "Visa" (by decide)

/-! ## Peace Shield status -/

/-- Result record of `get_peace_shield_status` (lines 906-939); message strings
are presentation-only and omitted. -/
structure ShieldStatus where
  shield_target : ℚ
  current_fill : ℚ
  fill_percentage : ℚ
  deficit : ℚ
  is_active : Bool
  attack_authorized : Bool
  deriving DecidableEq, Inhabited

/-- `get_peace_shield_status` (lines 906-939).  The Python body divides by
`shield_target` when computing `fill_percentage`; `Decimal` division by zero
raises (`DivisionByZero`/`InvalidOperation`), modelled as `Except.error`. -/
def get_peace_shield_status (liquid_cash : ℚ) (shield_target : ℚ := 1000) :
    Except String ShieldStatus :=
  let fill_amount := min liquid_cash shield_target
  if shield_target = 0 then .error "Decimal division by zero" else
  let fill_pct := round1 (fill_amount / shield_target * 100)
  let deficit := max 0 (shield_target - liquid_cash)
  let is_active := shield_target ≤ liquid_cash
  .ok {
    shield_target := shield_target
    current_fill := fill_amount
    fill_percentage := fill_pct
    deficit := deficit
    is_active := is_active
    attack_authorized := is_active
  }

/-- C10: with `shield_target = 0` the function raises a `Decimal` division
error for every `liquid_cash` (it never returns a status record), while under
the precondition `shield_target > 0` it always returns a record. -/
theorem peace_shield_zero_target (liquid_cash : ℚ) :
    (∀ st : ShieldStatus, get_peace_shield_status liquid_cash 0 ≠ .ok st) ∧
    (∀ shield_target : ℚ, 0 < shield_target →
      ∃ st : ShieldStatus, get_peace_shield_status liquid_cash shield_target = .ok st) := by
  constructor
  · intro st h
    simp [get_peace_shield_status] at h
  · intro shield_target hpos
    exact ⟨_, by rw [get_peace_shield_status, if_neg (ne_of_gt hpos)]⟩

theorem peace_shield_zero_target_witness :
    (∀ st : ShieldStatus, get_peace_shield_status 300 0 ≠ .ok st) ∧
    (∃ st : ShieldStatus, get_peace_shield_status 300 1000 = .ok st) :=
  ⟨(peace_shield_zero_target 300).1,
   (peace_shield_zero_target 300).2 1000 (by norm_num)⟩

/-! ## Tactical calendar and safety engine -/

/-- Calendar date; `datetime.date` lifted to a plain record (the engine only
reads `.day` and steps one day at a time). -/
structure Date where
  year : ℤ
  month : ℤ
  day : ℤ
  deriving DecidableEq, Inhabited

def isLeap (y : ℤ) : Bool := (y % 4 = 0 && y % 100 ≠ 0) || y % 400 = 0

def daysInMonth (y m : ℤ) : ℤ :=
  if m = 2 then (if isLeap y then 29 else 28)
  else if m = 4 ∨ m = 6 ∨ m = 9 ∨ m = 11 then 30
  else 31

/-- `current + timedelta(days=1)` on well-formed dates. -/
def nextDay (d : Date) : Date :=
  if d.day < daysInMonth d.year d.month then { d with day := d.day + 1 }
  else if d.month < 12 then { year := d.year, month := d.month + 1, day := 1 }
  else { year := d.year + 1, month := 1, day := 1 }

/-- A recurring income/expense dict `{"name": ..., "amount": ..., "day": ...}`
as consumed by `generate_projected_calendar`. -/
structure RecurringItem where
  name : String
  amount : ℚ
  day : ℤ
  deriving DecidableEq, Inhabited

/-- One day of the projected calendar (`CalendarDay` dataclass, lines 944-953);
the event dicts are reduced to their names and the starting-balance field
(always written as 0 by the source) is omitted. -/
structure CalendarDay where
  date_obj : Date
  events : List String
  ending_balance : ℚ
  is_critical : Bool
  is_reinforcement : Bool
  status : String
  deriving DecidableEq, Inhabited

/-- The daily loop of `generate_projected_calendar` (lines 982-1052): subtract
due debt minimums, subtract due recurring expenses, add due incomes, then
derive the day status and update the lowest projected balance. -/
def calLoop (debts : List DebtAccount) (expenses incomes : List RecurringItem)
    (shield_target : ℚ) : ℕ → Date → ℚ → ℚ → List CalendarDay × ℚ
  | 0, _, _, lowest => ([], lowest)
  | n + 1, cur, bal, lowest =>
    let day_num := cur.day
    let dueDebts := debts.filter (fun d => d.due_day == day_num)
    let dueExpenses := expenses.filter (fun e => e.day == day_num)
    let dueIncomes := incomes.filter (fun i => i.day == day_num)
    let bal1 := bal - (dueDebts.map (·.min_payment)).sum
    let bal2 := bal1 - (dueExpenses.map (·.amount)).sum
    let bal3 := bal2 + (dueIncomes.map (·.amount)).sum
    let daily_events :=
      dueDebts.map (·.name) ++ dueExpenses.map (·.name) ++ dueIncomes.map (·.name)
    let status :=
      if bal3 < shield_target then "danger"
      else if bal3 < shield_target * (11/10) then "warning"
      else "safe"
    let lowest' := min lowest bal3
    let thisDay : CalendarDay :=
      { date_obj := cur, events := daily_events, ending_balance := bal3,
        is_critical := !dueDebts.isEmpty || !dueExpenses.isEmpty,
        is_reinforcement := !dueIncomes.isEmpty, status := status }
    let rest := calLoop debts expenses incomes shield_target n (nextDay cur) bal3 lowest'
    (thisDay :: rest.1, rest.2)

/-- `generate_projected_calendar` (lines 955-1058), returning the calendar and
`lowest_projected_balance`; the `limiting_event` description string is
presentation-only and omitted.  A missing income list falls back to the
default `Salary $2000 on day 12`. -/
def generate_projected_calendar (start_date : Date) (num_days : ℕ)
    (current_liquid_cash shield_target : ℚ) (debts : List DebtAccount)
    (recurring_incomes recurring_expenses : Option (List RecurringItem)) :
    List CalendarDay × ℚ :=
  let incomes := recurring_incomes.getD [{ name := "Salary", amount := 2000, day := 12 }]
  let expenses := recurring_expenses.getD []
  calLoop debts expenses incomes shield_target num_days start_date
    current_liquid_cash current_liquid_cash

/-- Result record of `calculate_safe_attack_equity` (lines 1060-1115); the
breakdown/message strings and the calendar pass-through are presentation-only
and omitted. -/
structure SafeEquityResult where
  safe_equity : ℚ
  raw_equity : ℚ
  reserved_for_bills : ℚ
  deriving DecidableEq, Inhabited

/-- `calculate_safe_attack_equity` (lines 1060-1115). -/
def calculate_safe_attack_equity (today : Date) (liquid_cash shield_target : ℚ)
    (debts : List DebtAccount) (days_buffer : ℕ := 35)
    (recurring_incomes : Option (List RecurringItem) := none)
    (recurring_expenses : Option (List RecurringItem) := none) : SafeEquityResult :=
  let projection := generate_projected_calendar today days_buffer liquid_cash
    shield_target debts recurring_incomes recurring_expenses
  let lowest_balance := projection.2
  let safe_equity := max 0 (lowest_balance - shield_target)
  let raw_equity := max 0 (liquid_cash - shield_target)
  let reserved_for_bills := max 0 (raw_equity - safe_equity)
  { safe_equity := safe_equity, raw_equity := raw_equity,
    reserved_for_bills := reserved_for_bills }

/-- The lowest projected balance only moves down along the calendar loop. -/
theorem calLoop_lowest_le (debts : List DebtAccount)
    (expenses incomes : List RecurringItem) (shield_target : ℚ) :
    ∀ (n : ℕ) (cur : Date) (bal lowest : ℚ),
      (calLoop debts expenses incomes shield_target n cur bal lowest).2 ≤ lowest := by
  intro n
  induction n with
  | zero => intro cur bal lowest; simp [calLoop]
  | succ n ih =>
    intro cur bal lowest
    rw [calLoop]
    refine le_trans (ih _ _ _) ?_
    exact min_le_left _ _

/-- C3: `calculate_safe_attack_equity` always returns
`0 ≤ safe_equity ≤ raw_equity` with `raw_equity = max(0, liquid_cash −
shield_target)` and `reserved_for_bills = raw_equity − safe_equity`. -/
theorem safe_attack_equity_bounds (today : Date) (liquid_cash shield_target : ℚ)
    (debts : List DebtAccount) (days_buffer : ℕ)
    (recurring_incomes recurring_expenses : Option (List RecurringItem)) :
    0 ≤ (calculate_safe_attack_equity today liquid_cash shield_target debts
        days_buffer recurring_incomes recurring_expenses).safe_equity ∧
    (calculate_safe_attack_equity today liquid_cash shield_target debts
        days_buffer recurring_incomes recurring_expenses).safe_equity ≤
      (calculate_safe_attack_equity today liquid_cash shield_target debts
        days_buffer recurring_incomes recurring_expenses).raw_equity ∧
    (calculate_safe_attack_equity today liquid_cash shield_target debts
        days_buffer recurring_incomes recurring_expenses).raw_equity =
      max 0 (liquid_cash - shield_target) ∧
    (calculate_safe_attack_equity today liquid_cash shield_target debts
        days_buffer recurring_incomes recurring_expenses).reserved_for_bills =
      (calculate_safe_attack_equity today liquid_cash shield_target debts
          days_buffer recurring_incomes recurring_expenses).raw_equity -
        (calculate_safe_attack_equity today liquid_cash shield_target debts
            days_buffer recurring_incomes recurring_expenses).safe_equity := by
  have hlow : (generate_projected_calendar today days_buffer liquid_cash
      shield_target debts recurring_incomes recurring_expenses).2 ≤ liquid_cash := by
    unfold generate_projected_calendar
    exact calLoop_lowest_le _ _ _ _ _ _ _ _
  unfold calculate_safe_attack_equity
  set lowest := (generate_projected_calendar today days_buffer liquid_cash
      shield_target debts recurring_incomes recurring_expenses).2 with hdef
  refine ⟨le_max_left 0 _, ?_, rfl, ?_⟩
  · exact max_le_max le_rfl (by linarith)
  · have hsr : max 0 (lowest - shield_target) ≤ max 0 (liquid_cash - shield_target) :=
      max_le_max le_rfl (by linarith)
    simp only
    rw [max_eq_right (by linarith)]

/-! ## Freedom Path simulator -/

/-- The accrue-then-pay minimum-payment step for one debt (lines 1383-1397):
add the rounded monthly interest, subtract `min(balance, min_payment)`, snap
balances at or below one cent to zero.  Returns the new debt and the interest
accrued. -/
def accruePayMin (d : DebtAccount) : DebtAccount × ℚ :=
  if d.balance ≤ 0 then (d, 0)
  else
    let interest := round2 (d.balance * d.monthly_rate)
    let b1 := d.balance + interest
    let payment := min b1 d.min_payment
    let b2 := b1 - payment
    let b3 := if b2 ≤ 1/100 then 0 else b2
    ({ d with balance := b3 }, interest)

/-- Phase 2 of a simulated month: accrue interest and pay minimums on every
debt, also returning the month's interest sum. -/
def minPhase (ds : List DebtAccount) : List DebtAccount × ℚ :=
  (ds.map (fun d => (accruePayMin d).1), (ds.map (fun d => (accruePayMin d).2)).sum)

/-- Step A of the gap-first extra-cash allocation (lines 1407-1429): walk the
active debts in order, covering each positive `shortfall = round2(balance *
monthly_rate) - min_payment` with up to `min(shortfall, available, balance)`
of the extra pool, stopping when the pool is exhausted. -/
def stepA : List DebtAccount → ℚ → List DebtAccount × ℚ
  | [], avail => ([], avail)
  | d :: rest, avail =>
    if d.balance ≤ 0 then
      let r := stepA rest avail
      (d :: r.1, r.2)
    else if avail ≤ 0 then (d :: rest, avail)
    else
      let monthly_interest := round2 (d.balance * d.monthly_rate)
      let shortfall := monthly_interest - d.min_payment
      if 0 < shortfall then
        let gap_payment := min shortfall (min avail d.balance)
        let b := d.balance - gap_payment
        let b2 := if b ≤ 1/100 then 0 else b
        let r := stepA rest (avail - gap_payment)
        ({ d with balance := b2 } :: r.1, r.2)
      else
        let r := stepA rest avail
        (d :: r.1, r.2)

/-- Stable insertion by a rational key (ascending): Python's stable sort. -/
def insKey {α : Type} (key : α → ℚ) (x : α) : List α → List α
  | [] => [x]
  | y :: l => if key y < key x then y :: insKey key x l else x :: y :: l

/-- Stable sort by a rational key (ascending); a descending sort uses the
negated key, matching Python's stable `sort(key=..., reverse=True)`. -/
def sortKey {α : Type} (key : α → ℚ) (l : List α) : List α :=
  l.foldr (insKey key) []

/-- Overwrite the balance of the debt at index `i` (the Python loops mutate
list elements in place; clones are addressed here by their index). -/
def updBal (l : List DebtAccount) (i : ℕ) (b : ℚ) : List DebtAccount :=
  match l[i]? with
  | some d => l.set i { d with balance := b }
  | none => l

def applyUpdates (ds : List DebtAccount) (ups : List (ℕ × ℚ)) : List DebtAccount :=
  ups.foldl (fun l u => updBal l u.1 u.2) ds

/-- The avalanche loop of Step B (lines 1435-1445): pay `min(balance,
available)` onto each debt of the sorted active list, breaking when the pool
runs dry; returns the balance overwrites and the leftover pool. -/
def stepBLoop : List (ℕ × DebtAccount) → ℚ → List (ℕ × ℚ) × ℚ
  | [], avail => ([], avail)
  | (i, d) :: rest, avail =>
    if avail ≤ 0 then ([], avail)
    else
      let payment := min d.balance avail
      let b := d.balance - payment
      let b2 := if b ≤ 1/100 then 0 else b
      let r := stepBLoop rest (avail - payment)
      ((i, b2) :: r.1, r.2)

/-- Step B of the extra-cash allocation (lines 1431-1445): re-filter the
active debts, sort them by APR descending (stable), and avalanche the
remaining extra onto them. -/
def stepB (ds : List DebtAccount) (avail : ℚ) : List DebtAccount × ℚ :=
  let active := ds.enum.filter (fun p => decide (0 < p.2.balance))
  let sorted := sortKey (fun p => -(p.2.interest_rate)) active
  let r := stepBLoop sorted avail
  (applyUpdates ds r.1, r.2)

/-- One simulated month (lines 1381-1445): minimum payments with interest
accrual, then — when any debt is still active — gap coverage (Step A) and
avalanche (Step B) of the extra monthly payment.  Returns the new debts and
the month's interest sum. -/
def monthStep (extra : ℚ) (ds : List DebtAccount) : List DebtAccount × ℚ :=
  let mp := minPhase ds
  let active := mp.1.filter (fun d => decide (0 < d.balance))
  if active.isEmpty then mp
  else
    let a := stepA mp.1 extra
    let b := stepB a.1 a.2
    (b.1, mp.2)

/-- One timeline snapshot (lines 1450-1458); the month/date labels and the
elimination-event strings are presentation-only and omitted. -/
structure MonthSnapshot where
  total_balance : ℚ
  debts_active : ℕ
  interest_paid : ℚ
  is_freedom_month : Bool
  deriving DecidableEq, Inhabited

def totalBalance (ds : List DebtAccount) : ℚ := (ds.map (·.balance)).sum

/-- The `while any(...) and months < 600` loop of `simulate_freedom_path`
(lines 1370-1460), with `fuel = 600 - months_elapsed`; returns the timeline,
the total interest paid and the number of months simulated. -/
def simLoop (extra : ℚ) : ℕ → List DebtAccount → List MonthSnapshot × ℚ × ℕ
  | 0, _ => ([], 0, 0)
  | fuel + 1, ds =>
    if ds.any (fun d => decide (0 < d.balance)) then
      let m := monthStep extra ds
      let total := totalBalance m.1
      let snap : MonthSnapshot :=
        { total_balance := total,
          debts_active := (m.1.filter (fun d => decide (0 < d.balance))).length,
          interest_paid := m.2,
          is_freedom_month := total ≤ 0 }
      let rest := simLoop extra fuel m.1
      (snap :: rest.1, m.2 + rest.2.1, rest.2.2 + 1)
    else ([], 0, 0)

/-- Result of `simulate_freedom_path` (lines 1462-1468); the freedom-date
strings are presentation-only and omitted. -/
structure FreedomResult where
  timeline : List MonthSnapshot
  total_interest_paid : ℚ
  total_months : ℕ
  deriving DecidableEq, Inhabited

/-- The clone comprehension at lines 1351-1359: positive-balance debts are
copied with name, balance, APR, minimum payment and due day (the remaining
fields take their dataclass defaults). -/
def cloneForSim (d : DebtAccount) : DebtAccount :=
  { name := d.name, balance := d.balance, interest_rate := d.interest_rate,
    min_payment := d.min_payment, due_day := d.due_day }

/-- `simulate_freedom_path` (lines 1342-1468). -/
def simulate_freedom_path (debts : List DebtAccount)
    (extra_monthly_payment : ℚ := 0) : FreedomResult :=
  let sim_debts := (debts.filter (fun d => decide (0 < d.balance))).map cloneForSim
  let r := simLoop extra_monthly_payment 600 sim_debts
  { timeline := r.1, total_interest_paid := r.2.1, total_months := r.2.2 }

/-- Result of `calculate_debt_free_date` (lines 187-227); the ISO date strings
are presentation-only and omitted. -/
structure DebtFreeProjection where
  standard_months : ℕ
  velocity_months : ℕ
  months_saved : ℤ
  interest_saved : ℚ
  deriving DecidableEq, Inhabited

/-- `calculate_debt_free_date` (lines 187-227): the difference between the
standard (`extra = 0`) and velocity simulator runs, clamped at zero. -/
def calculate_debt_free_date (debts : List DebtAccount) (extra_monthly : ℚ := 0) :
    DebtFreeProjection :=
  if debts.isEmpty then
    { standard_months := 0, velocity_months := 0, months_saved := 0, interest_saved := 0 }
  else
    let standard_sim := simulate_freedom_path debts 0
    let velocity_sim := simulate_freedom_path debts extra_monthly
    let months_sv : ℤ := (standard_sim.total_months : ℤ) - velocity_sim.total_months
    let interest_sv := standard_sim.total_interest_paid - velocity_sim.total_interest_paid
    { standard_months := standard_sim.total_months,
      velocity_months := velocity_sim.total_months,
      months_saved := max 0 months_sv,
      interest_saved := round2 (max 0 interest_sv) }

/-! ### Dominance lemmas for the simulator -/

/-- Pointwise dominance between simulated debt states: same static terms
(APR, minimum payment, with a non-negative APR as the data model requires) and
a smaller-or-equal balance on the left. -/
def DomLe (a b : DebtAccount) : Prop :=
  a.interest_rate = b.interest_rate ∧ a.min_payment = b.min_payment ∧
  a.balance ≤ b.balance ∧ 0 ≤ a.interest_rate

theorem snap_mono {x y : ℚ} (h : x ≤ y) :
    (if x ≤ 1/100 then (0:ℚ) else x) ≤ (if y ≤ 1/100 then (0:ℚ) else y) := by
  split_ifs with hx hy
  · exact le_refl 0
  · linarith
  · linarith
  · exact h

theorem snap_le {x : ℚ} (hx : 0 ≤ x) : (if x ≤ 1/100 then (0:ℚ) else x) ≤ x := by
  split_ifs <;> [exact hx; exact le_rfl]

theorem snap_nonneg {x : ℚ} (hx : 0 ≤ x) : 0 ≤ (if x ≤ 1/100 then (0:ℚ) else x) := by
  split_ifs <;> [exact le_rfl; exact hx]

theorem sub_min_mono {u v m : ℚ} (h : u ≤ v) : u - min u m ≤ v - min v m := by
  rcases le_total u m with hu | hu <;> rcases le_total v m with hv | hv
  · rw [min_eq_left hu, min_eq_left hv]; linarith
  · rw [min_eq_left hu, min_eq_right hv]; linarith
  · rw [min_eq_right hu, min_eq_left hv]; linarith
  · rw [min_eq_right hu, min_eq_right hv]; linarith

theorem accruePayMin_rate (d : DebtAccount) :
    ((accruePayMin d).1).interest_rate = d.interest_rate := by
  unfold accruePayMin; split <;> rfl

theorem accruePayMin_minpay (d : DebtAccount) :
    ((accruePayMin d).1).min_payment = d.min_payment := by
  unfold accruePayMin; split <;> rfl

theorem accruePayMin_bal_nonneg {d : DebtAccount} (hd : ¬ d.balance ≤ 0) :
    0 ≤ ((accruePayMin d).1).balance := by
  unfold accruePayMin
  rw [if_neg hd]
  refine snap_nonneg ?_
  have := min_le_left (d.balance + round2 (d.balance * d.monthly_rate)) d.min_payment
  linarith

theorem accruePayMin_mono {a b : DebtAccount} (h : DomLe a b) :
    ((accruePayMin a).1).balance ≤ ((accruePayMin b).1).balance := by
  obtain ⟨hrate, hmin, hbal, hr⟩ := h
  have hrab : a.monthly_rate = b.monthly_rate := by
    unfold DebtAccount.monthly_rate; rw [hrate]
  have hr' : 0 ≤ a.monthly_rate := by
    unfold DebtAccount.monthly_rate; positivity
  by_cases ha : a.balance ≤ 0
  · have haeq : ((accruePayMin a).1).balance = a.balance := by
      unfold accruePayMin; rw [if_pos ha]
    by_cases hb : b.balance ≤ 0
    · have hbeq : ((accruePayMin b).1).balance = b.balance := by
        unfold accruePayMin; rw [if_pos hb]
      rw [haeq, hbeq]; exact hbal
    · rw [haeq]
      exact le_trans ha (accruePayMin_bal_nonneg hb)
  · have hb : ¬ b.balance ≤ 0 := fun hb => ha (le_trans hbal hb)
    unfold accruePayMin
    rw [if_neg ha, if_neg hb]
    simp only
    apply snap_mono
    have huv : a.balance + round2 (a.balance * a.monthly_rate) ≤
        b.balance + round2 (b.balance * b.monthly_rate) := by
      have : a.balance * a.monthly_rate ≤ b.balance * b.monthly_rate := by
        rw [hrab]
        exact mul_le_mul_of_nonneg_right hbal (hrab ▸ hr')
      have := round2_mono this
      linarith
    rw [hmin]
    exact sub_min_mono huv

theorem accruePayMin_domle {a b : DebtAccount} (h : DomLe a b) :
    DomLe (accruePayMin a).1 (accruePayMin b).1 := by
  refine ⟨?_, ?_, accruePayMin_mono h, ?_⟩
  · rw [accruePayMin_rate, accruePayMin_rate, h.1]
  · rw [accruePayMin_minpay, accruePayMin_minpay, h.2.1]
  · rw [accruePayMin_rate]; exact h.2.2.2

theorem minPhase_domle {l1 l2 : List DebtAccount} (h : List.Forall₂ DomLe l1 l2) :
    List.Forall₂ DomLe (minPhase l1).1 (minPhase l2).1 := by
  unfold minPhase
  simp only
  induction h with
  | nil => exact .nil
  | cons hd _ ih => exact .cons (accruePayMin_domle hd) ih

theorem domle_refl {ds : List DebtAccount} (h : ∀ d ∈ ds, 0 ≤ d.interest_rate) :
    List.Forall₂ DomLe ds ds := by
  induction ds with
  | nil => exact .nil
  | cons d rest ih =>
    exact .cons ⟨rfl, rfl, le_rfl, h d (List.mem_cons_self d rest)⟩
      (ih fun x hx => h x (List.mem_cons_of_mem d hx))

theorem domle_trans {l1 l2 l3 : List DebtAccount}
    (h12 : List.Forall₂ DomLe l1 l2) (h23 : List.Forall₂ DomLe l2 l3) :
    List.Forall₂ DomLe l1 l3 := by
  induction h12 generalizing l3 with
  | nil => cases h23; exact .nil
  | cons hd _ ih =>
    cases h23 with
    | cons hd' tl' =>
      exact .cons ⟨hd.1.trans hd'.1, hd.2.1.trans hd'.2.1,
        hd.2.2.1.trans hd'.2.2.1, hd.2.2.2⟩ (ih tl')

theorem domle_rate_nonneg {l1 l2 : List DebtAccount}
    (h : List.Forall₂ DomLe l1 l2) : ∀ d ∈ l1, 0 ≤ d.interest_rate := by
  induction h with
  | nil => intro d hd; cases hd
  | cons hd _ ih =>
    intro d hdm
    rcases List.mem_cons.mp hdm with heq | hmem
    · exact heq ▸ hd.2.2.2
    · exact ih d hmem

theorem stepA_nonpos {avail : ℚ} (h : avail ≤ 0) :
    ∀ ds : List DebtAccount, stepA ds avail = (ds, avail) := by
  intro ds
  induction ds with
  | nil => rfl
  | cons d rest ih =>
    rw [stepA]
    by_cases hd : d.balance ≤ 0
    · rw [if_pos hd, ih]
    · rw [if_neg hd, if_pos h]

theorem stepA_domle {ds : List DebtAccount} (h : ∀ d ∈ ds, 0 ≤ d.interest_rate) :
    ∀ avail : ℚ, List.Forall₂ DomLe (stepA ds avail).1 ds := by
  induction ds with
  | nil => intro avail; exact .nil
  | cons d rest ih =>
    intro avail
    have hd0 : 0 ≤ d.interest_rate := h d (List.mem_cons_self d rest)
    have hrest : ∀ x ∈ rest, 0 ≤ x.interest_rate :=
      fun x hx => h x (List.mem_cons_of_mem d hx)
    rw [stepA]
    by_cases hd : d.balance ≤ 0
    · rw [if_pos hd]
      exact .cons ⟨rfl, rfl, le_rfl, hd0⟩ (ih hrest avail)
    · rw [if_neg hd]
      by_cases ha : avail ≤ 0
      · rw [if_pos ha]
        exact domle_refl h
      · rw [if_neg ha]
        by_cases hsf : 0 < round2 (d.balance * d.monthly_rate) - d.min_payment
        · rw [if_pos hsf]
          push_neg at hd ha
          refine .cons ⟨rfl, rfl, ?_, hd0⟩ (ih hrest _)
          simp only
          have hgap0 : 0 ≤ min (round2 (d.balance * d.monthly_rate) - d.min_payment)
              (min avail d.balance) :=
            le_min hsf.le (le_min ha.le hd.le)
          have hgaple : min (round2 (d.balance * d.monthly_rate) - d.min_payment)
              (min avail d.balance) ≤ d.balance :=
            le_trans (min_le_right _ _) (min_le_right _ _)
          refine le_trans (snap_le (by linarith)) (by linarith)
        · rw [if_neg hsf]
          exact .cons ⟨rfl, rfl, le_rfl, hd0⟩ (ih hrest avail)

theorem insKey_perm {α : Type} (key : α → ℚ) (x : α) :
    ∀ l : List α, List.Perm (insKey key x l) (x :: l) := by
  intro l
  induction l with
  | nil => rfl
  | cons y l ih =>
    rw [insKey]
    split
    · exact (ih.cons y).trans (List.Perm.swap x y l)
    · rfl

theorem sortKey_perm {α : Type} (key : α → ℚ) (l : List α) : List.Perm (sortKey key l) l := by
  induction l with
  | nil => rfl
  | cons x l ih =>
    exact (insKey_perm key x (sortKey key l)).trans (ih.cons x)

theorem stepBLoop_bound :
    ∀ (l : List (ℕ × DebtAccount)) (avail : ℚ), (∀ p ∈ l, 0 ≤ p.2.balance) →
      ∀ u ∈ (stepBLoop l avail).1, ∃ p ∈ l, u.1 = p.1 ∧ u.2 ≤ p.2.balance := by
  intro l
  induction l with
  | nil => intro avail _ u hu; simp [stepBLoop] at hu
  | cons pd rest ih =>
    intro avail hpos u hu
    obtain ⟨i, d⟩ := pd
    rw [stepBLoop] at hu
    by_cases ha : avail ≤ 0
    · rw [if_pos ha] at hu; simp at hu
    · rw [if_neg ha] at hu
      simp only [List.mem_cons] at hu
      push_neg at ha
      have hd0 : 0 ≤ d.balance := hpos (i, d) (List.mem_cons_self _ _)
      rcases hu with heq | hmem
      · refine ⟨(i, d), List.mem_cons_self _ _, ?_, ?_⟩
        · rw [heq]
        · rw [heq]
          simp only
          have hmin : 0 ≤ min d.balance avail := le_min hd0 ha.le
          have hminle : min d.balance avail ≤ d.balance := min_le_left _ _
          exact le_trans (snap_le (by linarith)) (by linarith)
      · obtain ⟨p, hp, h1, h2⟩ :=
          ih _ (fun q hq => hpos q (List.mem_cons_of_mem _ hq)) u hmem
        exact ⟨p, List.mem_cons_of_mem _ hp, h1, h2⟩

theorem updBal_nil (i : ℕ) (b : ℚ) : updBal [] i b = [] := by
  simp [updBal]

theorem updBal_cons_zero (c : DebtAccount) (ct : List DebtAccount) (b : ℚ) :
    updBal (c :: ct) 0 b = { c with balance := b } :: ct := by
  simp [updBal]

theorem updBal_cons_succ (c : DebtAccount) (ct : List DebtAccount) (i : ℕ) (b : ℚ) :
    updBal (c :: ct) (i + 1) b = c :: updBal ct i b := by
  unfold updBal
  rw [List.getElem?_cons_succ]
  cases h : ct[i]? with
  | none => rfl
  | some d =>
    dsimp only
    rw [List.set_cons_succ]

theorem updBal_domle {cur ds0 : List DebtAccount} (h : List.Forall₂ DomLe cur ds0) :
    ∀ (i : ℕ) (b : ℚ), (∀ d, ds0[i]? = some d → b ≤ d.balance) →
      List.Forall₂ DomLe (updBal cur i b) ds0 := by
  induction h with
  | nil => intro i b _; rw [updBal_nil]; exact .nil
  | @cons c e ct et hd tl ih =>
    intro i b hb
    cases i with
    | zero =>
      rw [updBal_cons_zero]
      refine .cons ⟨hd.1, hd.2.1, ?_, hd.2.2.2⟩ tl
      exact hb e (by simp)
    | succ i =>
      rw [updBal_cons_succ]
      refine .cons hd (ih i b ?_)
      intro d hdeq
      exact hb d (by simpa using hdeq)

theorem applyUpdates_domle {ds0 : List DebtAccount} :
    ∀ (ups : List (ℕ × ℚ)) (cur : List DebtAccount),
      List.Forall₂ DomLe cur ds0 →
      (∀ u ∈ ups, ∀ d, ds0[u.1]? = some d → u.2 ≤ d.balance) →
      List.Forall₂ DomLe (ups.foldl (fun l u => updBal l u.1 u.2) cur) ds0 := by
  intro ups
  induction ups with
  | nil => intro cur h _; exact h
  | cons u rest ih =>
    intro cur h hb
    rw [List.foldl_cons]
    exact ih _ (updBal_domle h u.1 u.2 (hb u (List.mem_cons_self _ _)))
      (fun v hv => hb v (List.mem_cons_of_mem _ hv))

theorem stepB_domle {ds : List DebtAccount} (h : ∀ d ∈ ds, 0 ≤ d.interest_rate)
    (avail : ℚ) : List.Forall₂ DomLe (stepB ds avail).1 ds := by
  unfold stepB
  simp only
  apply applyUpdates_domle _ _ (domle_refl h)
  intro u hu d hd
  have hpos : ∀ p ∈ sortKey (fun p : ℕ × DebtAccount => -(p.2.interest_rate))
      (ds.enum.filter (fun p => decide (0 < p.2.balance))), 0 ≤ p.2.balance := by
    intro p hp
    have hp' := (sortKey_perm _ _).mem_iff.mp hp
    have := (List.mem_filter.mp hp').2
    have := of_decide_eq_true this
    linarith
  obtain ⟨p, hp, h1, h2⟩ := stepBLoop_bound _ _ hpos u hu
  have hp' := (sortKey_perm _ _).mem_iff.mp hp
  have hpe := (List.mem_filter.mp hp').1
  have : ds[p.1]? = some p.2 := by
    obtain ⟨i, x⟩ := p
    exact List.mk_mem_enum_iff_getElem?.mp hpe
  rw [h1, this] at hd
  cases hd
  exact h2

theorem stepB_nonpos {ds : List DebtAccount} {avail : ℚ} (h : avail ≤ 0) :
    stepB ds avail = (ds, avail) := by
  unfold stepB
  simp only
  cases hs : sortKey (fun p : ℕ × DebtAccount => -(p.2.interest_rate))
      (ds.enum.filter (fun p => decide (0 < p.2.balance))) with
  | nil => rw [stepBLoop]; rfl
  | cons p rest =>
    obtain ⟨i, d⟩ := p
    rw [stepBLoop, if_pos h]
    rfl

theorem monthStep_zero (ds : List DebtAccount) : monthStep 0 ds = minPhase ds := by
  unfold monthStep
  dsimp only
  split
  · rfl
  · rw [stepA_nonpos le_rfl, stepB_nonpos le_rfl]

theorem monthStep_domle {l1 l2 : List DebtAccount} (e : ℚ)
    (h : List.Forall₂ DomLe l1 l2) :
    List.Forall₂ DomLe (monthStep e l1).1 (monthStep 0 l2).1 := by
  rw [monthStep_zero]
  have hmp : List.Forall₂ DomLe (minPhase l1).1 (minPhase l2).1 := minPhase_domle h
  unfold monthStep
  dsimp only
  split
  · exact hmp
  · have hr1 : ∀ d ∈ (minPhase l1).1, 0 ≤ d.interest_rate := domle_rate_nonneg hmp
    have hA := stepA_domle hr1 e
    have hrA : ∀ d ∈ (stepA (minPhase l1).1 e).1, 0 ≤ d.interest_rate :=
      domle_rate_nonneg hA
    have hB := stepB_domle hrA (stepA (minPhase l1).1 e).2
    exact domle_trans (domle_trans hB hA) hmp

theorem domle_any {l1 l2 : List DebtAccount} (h : List.Forall₂ DomLe l1 l2)
    (ha : l1.any (fun d => decide (0 < d.balance)) = true) :
    l2.any (fun d => decide (0 < d.balance)) = true := by
  induction h with
  | nil => simp at ha
  | cons hd _ ih =>
    simp only [List.any_cons, Bool.or_eq_true] at ha ⊢
    rcases ha with h1 | h2
    · left
      have := of_decide_eq_true h1
      exact decide_eq_true (by linarith [hd.2.2.1])
    · right; exact ih h2

theorem simLoop_months_le (e : ℚ) :
    ∀ (fuel : ℕ) (l1 l2 : List DebtAccount), List.Forall₂ DomLe l1 l2 →
      (simLoop e fuel l1).2.2 ≤ (simLoop 0 fuel l2).2.2 := by
  intro fuel
  induction fuel with
  | zero => intro l1 l2 _; simp [simLoop]
  | succ fuel ih =>
    intro l1 l2 h
    rw [simLoop, simLoop]
    by_cases h1 : l1.any (fun d => decide (0 < d.balance)) = true
    · rw [if_pos h1, if_pos (domle_any h h1)]
      simp only
      have := ih (monthStep e l1).1 (monthStep 0 l2).1 (monthStep_domle e h)
      omega
    · rw [if_neg h1]
      simp only
      split <;> simp

/-- C6: with any positive extra monthly payment, the velocity run of
`simulate_freedom_path` finishes in at most as many months as the standard
(`extra = 0`) run, and `calculate_debt_free_date` reports non-negative
`months_saved` and `interest_saved`.  Non-negative APRs are the data-model
domain. -/
theorem freedom_path_extra_le (debts : List DebtAccount) (extra : ℚ)
    (hr : ∀ d ∈ debts, 0 ≤ d.interest_rate) (_hx : 0 < extra) :
    (simulate_freedom_path debts extra).total_months ≤
      (simulate_freedom_path debts 0).total_months ∧
    0 ≤ (calculate_debt_free_date debts extra).months_saved ∧
    0 ≤ (calculate_debt_free_date debts extra).interest_saved := by
  refine ⟨?_, ?_, ?_⟩
  · unfold simulate_freedom_path
    dsimp only
    apply simLoop_months_le
    apply domle_refl
    intro c hc
    obtain ⟨d, hd, rfl⟩ := List.mem_map.mp hc
    exact hr d (List.mem_filter.mp hd).1
  · unfold calculate_debt_free_date
    dsimp only
    split
    · exact le_rfl
    · exact le_max_left 0 _
  · unfold calculate_debt_free_date
    dsimp only
    split
    · exact le_rfl
    · exact round2_nonneg (le_max_left 0 _)

attribute [local semireducible] Rat.add Rat.mul Rat.sub Rat.inv in
theorem freedom_path_extra_le_witness :
    (simulate_freedom_path
        [{ name := "Card", balance := 10000, interest_rate := 24, min_payment := 200 }]
        500).total_months ≤
      (simulate_freedom_path
        [{ name := "Card", balance := 10000, interest_rate := 24, min_payment := 200 }]
        0).total_months ∧
    0 ≤ (calculate_debt_free_date
        [{ name := "Card", balance := 10000, interest_rate := 24, min_payment := 200 }]
        500).months_saved ∧
    0 ≤ (calculate_debt_free_date
        [{ name := "Card", balance := 10000, interest_rate := 24, min_payment := 200 }]
        500).interest_saved :=
  freedom_path_extra_le _ 500 (by decide) (by norm_num)

/-! ### Timeline monotonicity (C1) -/

/-- Every debt's minimum payment covers its rounded monthly interest at the
current balance. -/
def Covered (ds : List DebtAccount) : Prop :=
  ∀ d ∈ ds, 0 ≤ d.interest_rate ∧ round2 (d.balance * d.monthly_rate) ≤ d.min_payment

theorem covered_mono {l1 l2 : List DebtAccount} (h : List.Forall₂ DomLe l1 l2)
    (hc : Covered l2) : Covered l1 := by
  induction h with
  | nil => intro d hd; cases hd
  | @cons a b _ _ hd _ ih =>
    intro d hdm
    rcases List.mem_cons.mp hdm with rfl | hmem
    · obtain ⟨h2r, h2c⟩ := hc b (List.mem_cons_self _ _)
      have hrr : d.monthly_rate = b.monthly_rate := by
        unfold DebtAccount.monthly_rate; rw [hd.1]
      refine ⟨hd.2.2.2, ?_⟩
      rw [hd.2.1]
      refine le_trans (round2_mono ?_) h2c
      rw [hrr]
      apply mul_le_mul_of_nonneg_right hd.2.2.1
      unfold DebtAccount.monthly_rate
      rw [← hd.1]
      exact div_nonneg (div_nonneg hd.2.2.2 (by norm_num)) (by norm_num)
    · exact ih (fun x hx => hc x (List.mem_cons_of_mem _ hx)) d hmem

theorem accruePayMin_le_self {d : DebtAccount}
    (h : round2 (d.balance * d.monthly_rate) ≤ d.min_payment) :
    ((accruePayMin d).1).balance ≤ d.balance := by
  unfold accruePayMin
  by_cases hd : d.balance ≤ 0
  · rw [if_pos hd]
  · rw [if_neg hd]
    push_neg at hd
    simp only
    have hmin : min (d.balance + round2 (d.balance * d.monthly_rate)) d.min_payment ≤
        d.balance + round2 (d.balance * d.monthly_rate) := min_le_left _ _
    refine le_trans (snap_le (by linarith)) ?_
    rcases le_total d.min_payment (d.balance + round2 (d.balance * d.monthly_rate))
      with hm | hm
    · rw [min_eq_right hm]; linarith
    · rw [min_eq_left hm]; linarith

theorem minPhase_le_self {ds : List DebtAccount} (h : Covered ds) :
    List.Forall₂ DomLe (minPhase ds).1 ds := by
  unfold minPhase
  simp only
  induction ds with
  | nil => exact .nil
  | cons d rest ih =>
    obtain ⟨hr, hc⟩ := h d (List.mem_cons_self _ _)
    refine .cons ⟨accruePayMin_rate d, accruePayMin_minpay d,
      accruePayMin_le_self hc, ?_⟩ (ih fun x hx => h x (List.mem_cons_of_mem _ hx))
    rw [accruePayMin_rate]; exact hr

theorem monthStep_le_self {ds : List DebtAccount} (e : ℚ) (h : Covered ds) :
    List.Forall₂ DomLe (monthStep e ds).1 ds := by
  have hmp := minPhase_le_self h
  unfold monthStep
  dsimp only
  split
  · exact hmp
  · have hr1 : ∀ d ∈ (minPhase ds).1, 0 ≤ d.interest_rate := domle_rate_nonneg hmp
    have hA := stepA_domle hr1 e
    have hB := stepB_domle (domle_rate_nonneg hA) (stepA (minPhase ds).1 e).2
    exact domle_trans (domle_trans hB hA) hmp

theorem totalBalance_mono {l1 l2 : List DebtAccount}
    (h : List.Forall₂ DomLe l1 l2) : totalBalance l1 ≤ totalBalance l2 := by
  unfold totalBalance
  induction h with
  | nil => exact le_rfl
  | cons hd _ ih =>
    simp only [List.map_cons, List.sum_cons]
    exact add_le_add hd.2.2.1 ih

theorem simLoop_chain (e : ℚ) :
    ∀ (fuel : ℕ) (ds : List DebtAccount), Covered ds →
      List.Chain' (fun s t : MonthSnapshot => t.total_balance ≤ s.total_balance)
          (simLoop e fuel ds).1 ∧
        ∀ s ∈ (simLoop e fuel ds).1.head?, s.total_balance ≤ totalBalance ds := by
  intro fuel
  induction fuel with
  | zero =>
    intro ds _
    exact ⟨List.chain'_nil, by simp [simLoop]⟩
  | succ fuel ih =>
    intro ds hcov
    rw [simLoop]
    by_cases hany : ds.any (fun d => decide (0 < d.balance)) = true
    · rw [if_pos hany]
      simp only
      have hms := monthStep_le_self e hcov
      have hle := totalBalance_mono hms
      have hcov' := covered_mono hms hcov
      obtain ⟨hchain, hhead⟩ := ih (monthStep e ds).1 hcov'
      constructor
      · refine List.chain'_cons'.mpr ⟨?_, hchain⟩
        intro t ht
        exact le_trans (hhead t ht) le_rfl
      · intro s hs
        simp only [List.head?_cons, Option.mem_some_iff] at hs
        rw [← hs]
        exact hle
    · rw [if_neg hany]
      exact ⟨List.chain'_nil, by simp⟩

/-- C1 (amended): the timeline's `total_balance` is non-increasing at every
step, provided every debt's minimum payment is at least its rounded first
monthly interest `round2(balance * monthly_rate)` (with the data-model
non-negative APR); without that proviso a debt below the interest-coverage
threshold makes the total grow. -/
theorem freedom_timeline_nonincreasing (debts : List DebtAccount) (extra : ℚ)
    (H : ∀ d ∈ debts,
      0 ≤ d.interest_rate ∧ round2 (d.balance * d.monthly_rate) ≤ d.min_payment) :
    List.Chain' (fun s t : MonthSnapshot => t.total_balance ≤ s.total_balance)
      (simulate_freedom_path debts extra).timeline := by
  unfold simulate_freedom_path
  dsimp only
  refine (simLoop_chain extra 600 _ ?_).1
  intro c hc
  obtain ⟨d, hd, rfl⟩ := List.mem_map.mp hc
  exact H d (List.mem_filter.mp hd).1

theorem chain'_getD {α : Type} [Inhabited α] {R : α → α → Prop} {l : List α}
    (h : List.Chain' R l) (i : ℕ) (hi : i + 1 < l.length) :
    R (l.getD i default) (l.getD (i + 1) default) := by
  rw [List.chain'_iff_get] at h
  have hr := h i (by omega)
  have h1 : l.getD i default = l.get ⟨i, by omega⟩ := by
    rw [List.getD_eq_get?, List.get?_eq_get]; rfl
  have h2 : l.getD (i + 1) default = l.get ⟨i + 1, hi⟩ := by
    rw [List.getD_eq_get?, List.get?_eq_get]; rfl
  rw [h1, h2]
  exact hr

/-- The single debt of the C1 counterexample: $100 at 12% APR with a $0
minimum payment grows by 1% a month forever. -/
def c1CexDebt : DebtAccount :=
  { name := "Trap", balance := 100, interest_rate := 12, min_payment := 0 }

attribute [local semireducible] Rat.add Rat.mul Rat.sub Rat.inv in
set_option maxRecDepth 4000000 in
/-- C1 counterexample: for the debt set `[$100 at 12% APR, min payment $0]`
and `extra_monthly_payment = 0`, the simulated timeline's `total_balance`
increases from month to month ($101 → $102.01 → ...), refuting the claim for
arbitrary inputs. -/
theorem freedom_timeline_cex :
    ¬ List.Chain' (fun s t : MonthSnapshot => t.total_balance ≤ s.total_balance)
      (simulate_freedom_path [c1CexDebt] 0).timeline := by
  intro h
  have h01 := chain'_getD h 0 (by decide)
  have hval : ¬ (((simulate_freedom_path [c1CexDebt] 0).timeline.getD 1
        default).total_balance ≤
      ((simulate_freedom_path [c1CexDebt] 0).timeline.getD 0
        default).total_balance) := by decide
  exact hval h01

attribute [local semireducible] Rat.add Rat.mul Rat.sub Rat.inv in
theorem freedom_timeline_nonincreasing_witness :
    List.Chain' (fun s t : MonthSnapshot => t.total_balance ≤ s.total_balance)
      (simulate_freedom_path
        [{ name := "Card", balance := 5000, interest_rate := 20, min_payment := 200 }]
        100).timeline :=
  freedom_timeline_nonincreasing _ 100 (by decide)

/-! ### Gap-first coverage (C4) -/

/-- After the minimum-payment step, Step A recomputes the shortfall on the
*new* balance (line 1413: `monthly_interest = debt.balance * monthly_rate`
after the minimum already reduced the balance).  This is the amount of extra
cash that keeps a single under-covered debt from growing. -/
def gapShortfall (d : DebtAccount) : ℚ :=
  round2 ((d.balance + round2 (d.balance * d.monthly_rate) - d.min_payment) *
    d.monthly_rate) - d.min_payment

theorem stepA_nil (avail : ℚ) : stepA [] avail = ([], avail) := rfl

/-- First simulated month of a single gap debt: with
`extra ≥ gapShortfall`, the month ends at or below the starting balance. -/
theorem monthStep_singleton_gap (c : DebtAccount) (extra : ℚ)
    (hb : 0 < c.balance) (hr : 0 ≤ c.interest_rate) (hm : 0 ≤ c.min_payment)
    (hgap : c.min_payment < round2 (c.balance * c.monthly_rate))
    (hx : gapShortfall c ≤ extra) :
    totalBalance (monthStep extra [c]).1 ≤ c.balance := by
  have hrq : 0 ≤ c.monthly_rate := div_nonneg (div_nonneg hr (by norm_num)) (by norm_num)
  have hi0 : 0 < round2 (c.balance * c.monthly_rate) := lt_of_le_of_lt hm hgap
  have hpm : min (c.balance + round2 (c.balance * c.monthly_rate)) c.min_payment =
      c.min_payment := min_eq_right (by linarith)
  have hapm : (accruePayMin c).1 = { c with balance :=
      (if c.balance + round2 (c.balance * c.monthly_rate) - c.min_payment ≤ 1/100
       then 0
       else c.balance + round2 (c.balance * c.monthly_rate) - c.min_payment) } := by
    unfold accruePayMin
    rw [if_neg (not_le.mpr hb)]
    dsimp only
    rw [hpm]
  have hmp1 : (minPhase [c]).1 = [(accruePayMin c).1] := by
    unfold minPhase
    simp
  by_cases hsnap : c.balance + round2 (c.balance * c.monthly_rate) - c.min_payment ≤ 1/100
  · -- the minimum payment already brings the debt to (clamped) zero
    have hz : (accruePayMin c).1 = { c with balance := 0 } := by
      rw [hapm, if_pos hsnap]
    unfold monthStep
    dsimp only
    rw [hmp1, hz]
    rw [List.filter_cons_of_neg (by simp), List.filter_nil]
    split
    · rw [hmp1, hz]
      unfold totalBalance
      simp
      linarith
    · next hemp => exact absurd rfl hemp
  · -- the debt survives the minimum payment and Step A covers the gap
    have hb2eq : (accruePayMin c).1 = { c with balance :=
        (c.balance + round2 (c.balance * c.monthly_rate) - c.min_payment) } := by
      rw [hapm, if_neg hsnap]
    push_neg at hsnap
    have hb2pos : 0 < c.balance + round2 (c.balance * c.monthly_rate) - c.min_payment := by
      linarith
    have hmi : round2 (c.balance * c.monthly_rate) ≤
        round2 ((c.balance + round2 (c.balance * c.monthly_rate) - c.min_payment) *
          c.monthly_rate) := by
      apply round2_mono
      apply mul_le_mul_of_nonneg_right _ hrq
      linarith
    have hsf0 : 0 < round2 ((c.balance + round2 (c.balance * c.monthly_rate) -
        c.min_payment) * c.monthly_rate) - c.min_payment := by linarith
    have hx0 : 0 < extra := lt_of_lt_of_le (by unfold gapShortfall at hx ⊢; linarith) hx
    unfold monthStep
    dsimp only
    rw [hmp1, hb2eq]
    rw [List.filter_cons_of_pos (by simp; linarith), List.filter_nil]
    split
    · next hemp => simp at hemp
    next _hemp =>
      have hrate_upd : ({ c with balance :=
          (c.balance + round2 (c.balance * c.monthly_rate) - c.min_payment) } :
          DebtAccount).monthly_rate = c.monthly_rate := rfl
      rw [stepA]
      dsimp only [hrate_upd]
      rw [hrate_upd]
      rw [if_neg (by linarith), if_neg (not_le.mpr hx0), if_pos hsf0]
      dsimp only
      rw [stepA_nil]
      set mi := round2 ((c.balance + round2 (c.balance * c.monthly_rate) -
        c.min_payment) * c.monthly_rate) with hmidef
      set b2 := c.balance + round2 (c.balance * c.monthly_rate) - c.min_payment with hb2def
      have hgap_eq : min (mi - c.min_payment) (min extra b2) =
          min (mi - c.min_payment) b2 := by
        apply le_antisymm
        · exact le_min (min_le_left _ _) (le_trans (min_le_right _ _) (min_le_right _ _))
        · refine le_min (min_le_left _ _) ?_
          refine le_min ?_ (min_le_right _ _)
          refine le_trans (min_le_left _ _) ?_
          unfold gapShortfall at hx
          rw [← hmidef] at hx
          exact hx
      rw [hgap_eq]
      have hnewle : (if b2 - min (mi - c.min_payment) b2 ≤ 1/100 then (0:ℚ)
          else b2 - min (mi - c.min_payment) b2) ≤ c.balance := by
        rcases le_total b2 (mi - c.min_payment) with hc2 | hc2
        · rw [min_eq_right hc2]
          split_ifs <;> linarith
        · rw [min_eq_left hc2]
          have : b2 - (mi - c.min_payment) ≤ c.balance := by
            rw [hb2def]; linarith
          split_ifs <;> linarith
      have hstepb := @stepB_domle [{ c with balance :=
          (if b2 - min (mi - c.min_payment) b2 ≤ 1/100 then 0
           else b2 - min (mi - c.min_payment) b2) }]
        (by intro d hd
            simp only [List.mem_singleton] at hd
            subst hd
            exact hr)
        (extra - min (mi - c.min_payment) b2)
      have htb := totalBalance_mono hstepb
      refine le_trans htb ?_
      unfold totalBalance
      simp only [List.map_cons, List.map_nil, List.sum_cons, List.sum_nil, add_zero]
      exact hnewle

theorem simLoop_succ_pos (e : ℚ) (fuel : ℕ) (ds : List DebtAccount)
    (h : ds.any (fun x => decide (0 < x.balance)) = true) :
    (simLoop e (fuel + 1) ds).1 =
      { total_balance := totalBalance (monthStep e ds).1,
        debts_active :=
          ((monthStep e ds).1.filter (fun x => decide (0 < x.balance))).length,
        interest_paid := (monthStep e ds).2,
        is_freedom_month := decide (totalBalance (monthStep e ds).1 ≤ 0) } ::
        (simLoop e fuel (monthStep e ds).1).1 := by
  rw [simLoop, if_pos h]

/-- C4 (amended): for a single-debt input whose minimum payment is strictly
below the rounded monthly interest, an extra monthly payment of at least the
gap-step shortfall (recomputed by the code on the post-minimum balance)
keeps the debt's balance after the first simulated month at or below its
starting balance — it does not grow.  (As stated, the claim fails: with
`extra` equal to the shortfall the first month ends exactly at the starting
balance, not strictly below it; and the code recomputes the shortfall on the
already-reduced balance, so the claim's `monthly interest − min_payment`
can undershoot the amount actually needed.) -/
theorem freedom_gap_first (d : DebtAccount) (extra : ℚ)
    (hb : 0 < d.balance) (hr : 0 ≤ d.interest_rate) (hm : 0 ≤ d.min_payment)
    (hgap : d.min_payment < round2 (d.balance * d.monthly_rate))
    (hx : gapShortfall d ≤ extra) :
    (simulate_freedom_path [d] extra).timeline ≠ [] ∧
    ((simulate_freedom_path [d] extra).timeline.headI).total_balance ≤ d.balance := by
  unfold simulate_freedom_path
  dsimp only
  have hfil : List.filter (fun x => decide (0 < x.balance)) [d] = [d] := by
    simp only [List.filter_cons, List.filter_nil]
    rw [if_pos (decide_eq_true hb)]
  rw [hfil, List.map_cons, List.map_nil]
  have h600 : (600:ℕ) = 599 + 1 := rfl
  have hany : ([cloneForSim d].any (fun x => decide (0 < x.balance))) = true := by
    simp only [List.any_cons, List.any_nil, Bool.or_false, decide_eq_true_eq]
    exact hb
  rw [h600, simLoop_succ_pos _ _ _ hany]
  refine ⟨List.cons_ne_nil _ _, ?_⟩
  rw [List.headI_cons]
  exact monthStep_singleton_gap (cloneForSim d) extra hb hr hm hgap hx

/-- The debt of the C4 counterexample and witness: $1000 at 12% APR with a $5
minimum payment ($10 of monthly interest accrues). -/
def c4CexDebt : DebtAccount :=
  { name := "Gap", balance := 1000, interest_rate := 12, min_payment := 5 }

attribute [local semireducible] Rat.add Rat.mul Rat.sub Rat.inv in
set_option maxRecDepth 4000000 in
/-- C4 counterexample: the debt has `min_payment = 5` strictly below its
monthly interest `1000 × 12/100/12 = 10`, and `extra = 5` equals the claim's
shortfall `10 − 5`, yet after the first simulated month the balance is exactly
$1000 — not strictly less than the starting balance. -/
theorem freedom_gap_first_cex :
    c4CexDebt.min_payment < c4CexDebt.balance * c4CexDebt.monthly_rate ∧
    c4CexDebt.balance * c4CexDebt.monthly_rate - c4CexDebt.min_payment ≤ 5 ∧
    ¬ (((simulate_freedom_path [c4CexDebt] 5).timeline.headI).total_balance <
        c4CexDebt.balance) := by
  refine ⟨by norm_num [c4CexDebt, DebtAccount.monthly_rate],
    by norm_num [c4CexDebt, DebtAccount.monthly_rate], ?_⟩
  have heq : ((simulate_freedom_path [c4CexDebt] 5).timeline.headI).total_balance
      = 1000 := by decide
  rw [heq]
  norm_num [c4CexDebt]

attribute [local semireducible] Rat.add Rat.mul Rat.sub Rat.inv in
theorem freedom_gap_first_witness :
    (simulate_freedom_path [c4CexDebt] 10).timeline ≠ [] ∧
    ((simulate_freedom_path [c4CexDebt] 10).timeline.headI).total_balance ≤
      c4CexDebt.balance :=
  freedom_gap_first c4CexDebt 10 (by norm_num [c4CexDebt]) (by norm_num [c4CexDebt])
    (by norm_num [c4CexDebt]) (by decide) (by decide)

/-! ## Attack Allocator / Action Planner (`generate_action_plan`) -/

/-- `_days_until_due` (lines 1475-1501): days from `ref` to the next
occurrence of `due_day`, clamping to month ends. -/
def daysUntilDue (due_day : ℤ) (ref : Date) : ℤ :=
  if due_day ≤ 0 then 999
  else if ref.day ≤ due_day then min due_day (daysInMonth ref.year ref.month) - ref.day
  else
    let ny := if ref.month = 12 then ref.year + 1 else ref.year
    let nm := if ref.month = 12 then 1 else ref.month + 1
    (daysInMonth ref.year ref.month - ref.day) + min due_day (daysInMonth ny nm)

/-- One movement dict of `generate_action_plan` (lines 541-850).  Kept fields
are the ones the claims read; the title/description strings and the
float-rounded impact estimates (`days_shortened`, `total_interest_saved`,
`debt_progress_pct`) are presentation-only and omitted.  `mtype` is the
dict's `"type"` key; the weapon fields are only set on `velocity_chunk`
movements, mirroring the extra dict keys of that movement. -/
structure Movement where
  day : ℤ
  mtype : String
  amount : ℚ
  source : String
  destination : String
  balance_before : ℚ := 0
  balance_after : ℚ := 0
  funding_balance_after : ℚ := 0
  daily_interest_saved : ℚ := 0
  weapon_apr : ℚ := 0
  target_apr : ℚ := 0
  arbitrage_spread : ℚ := 0
  deriving DecidableEq, Inhabited

/-- Phase 1 (lines 529-560): minimum payments on due dates, walking the
cloned debts in order and debiting the funding balance. -/
def planMinPayments (day : ℤ) (fund : String) :
    List DebtAccount → ℚ → List DebtAccount × ℚ × List Movement
  | [], bal => ([], bal, [])
  | d :: rest, bal =>
    if d.balance ≤ 0 then
      let r := planMinPayments day fund rest bal
      (d :: r.1, r.2.1, r.2.2)
    else if d.due_day = day then
      let payment := min d.min_payment d.balance
      if 0 < payment then
        let mv : Movement := {
          day := day
          mtype := "min_payment"
          amount := payment
          source := fund
          destination := d.name
          balance_before := d.balance
          balance_after := d.balance - payment
          funding_balance_after := bal - payment }
        let r := planMinPayments day fund rest (bal - payment)
        ({ d with balance := d.balance - payment } :: r.1, r.2.1, mv :: r.2.2)
      else
        let r := planMinPayments day fund rest bal
        (d :: r.1, r.2.1, r.2.2)
    else
      let r := planMinPayments day fund rest bal
      (d :: r.1, r.2.1, r.2.2)

/-- Phase 2 (lines 562-584): income arrivals credited to the funding
balance. -/
def planIncomes (day : ℤ) (fund : String) :
    List CashflowTactical → ℚ → ℚ × List Movement
  | [], bal => (bal, [])
  | inc :: rest, bal =>
    if inc.day_of_month = day then
      let mv : Movement := {
        day := day
        mtype := "income"
        amount := inc.amount
        source := inc.name
        destination := fund
        funding_balance_after := bal + inc.amount }
      let r := planIncomes day fund rest (bal + inc.amount)
      (r.1, mv :: r.2)
    else planIncomes day fund rest bal

/-- Python's `max(l, key=...)`: the first element of maximal interest rate. -/
def maxByRate (e : ℕ × DebtAccount) (l : List (ℕ × DebtAccount)) : ℕ × DebtAccount :=
  l.foldl (fun best p => if best.2.interest_rate < p.2.interest_rate then p else best) e

/-- Overwrite the balance of the weapon at index `i`. -/
def updWBal (l : List VelocityWeapon) (i : ℕ) (b : ℚ) : List VelocityWeapon :=
  match l[i]? with
  | some w => l.set i { w with balance := b }
  | none => l

/-- Eligibility of a target debt for a chunk from weapon `w` (lines 598-603):
positive balance, strictly higher APR than the weapon, not itself a weapon
subtype. -/
def chunkEligible (w : VelocityWeapon) (p : ℕ × DebtAccount) : Bool :=
  decide (0 < p.2.balance) && decide (w.interest_rate < p.2.interest_rate) &&
    !(p.2.debt_subtype == "heloc") && !(p.2.debt_subtype == "uil")

/-- Phase 3 (lines 586-663): walk the weapons sorted by APR ascending; for the
first weapon with at least $500 of available credit and an eligible target,
deploy `min(available_credit, target.balance, 15000)` (skipping chunks below
$500) and stop.  Returns the movement plus the balance overwrites for the
target debt and the weapon. -/
def chunkTry (day : ℤ) (debts : List DebtAccount) (sim_bal : ℚ) :
    List (ℕ × VelocityWeapon) → Option (Movement × (ℕ × ℚ) × (ℕ × ℚ))
  | [] => none
  | (wi, w) :: rest =>
    if w.available_credit < 500 then chunkTry day debts sim_bal rest
    else
      match debts.enum.filter (chunkEligible w) with
      | [] => chunkTry day debts sim_bal rest
      | e :: es =>
        let t := maxByRate e es
        let chunk_amount := min (min w.available_credit t.2.balance) 15000
        if chunk_amount < 500 then chunkTry day debts sim_bal rest
        else
          let target_daily := t.2.interest_rate / 100 / 365
          let net_daily := round2 ((target_daily - w.daily_rate) * chunk_amount)
          some ({
              day := day
              mtype := "velocity_chunk"
              amount := chunk_amount
              source := w.name
              destination := t.2.name
              balance_before := t.2.balance
              balance_after := t.2.balance - chunk_amount
              funding_balance_after := sim_bal
              daily_interest_saved := net_daily
              weapon_apr := w.interest_rate
              target_apr := t.2.interest_rate
              arbitrage_spread := t.2.interest_rate - w.interest_rate },
            (t.1, t.2.balance - chunk_amount), (wi, w.balance + chunk_amount))

/-- Phase 4.1 (lines 673-735): float kills over the revolving debts due
within the grace window, smallest balance first; threads the remaining ammo
and the funding balance, breaking once the ammo is at or below $10. -/
def floatLoop (day : ℤ) (fund : String) :
    List (ℕ × DebtAccount) → ℚ → ℚ → List (ℕ × ℚ) × ℚ × ℚ × List Movement
  | [], remaining, bal => ([], remaining, bal, [])
  | (i, d) :: rest, remaining, bal =>
    if remaining ≤ 10 then ([], remaining, bal, [])
    else if d.balance ≤ 0 then floatLoop day fund rest remaining bal
    else
      let payment := min remaining d.balance
      let daily_savings := round2 (payment * (d.interest_rate / 100) / 365)
      let mv : Movement := {
        day := day
        mtype := "float_kill"
        amount := payment
        source := fund
        destination := d.name
        balance_before := d.balance
        balance_after := d.balance - payment
        funding_balance_after := bal - payment
        daily_interest_saved := daily_savings }
      let r := floatLoop day fund rest (remaining - payment) (bal - payment)
      ((i, d.balance - payment) :: r.1, r.2.1, r.2.2.1, mv :: r.2.2.2)

/-- Phase 4.2 (lines 737-799): try each killable candidate, smallest balance
first; eliminate the first whose 12-month hybrid benefit beats the pure
avalanche benefit. -/
def hybridTry (day : ℤ) (fund : String) (avalanche_t : DebtAccount)
    (remaining bal : ℚ) : List (ℕ × DebtAccount) → Option (Movement × (ℕ × ℚ) × ℚ)
  | [] => none
  | (i, cand) :: rest =>
    let freed_min := cand.min_payment
    let leftover := remaining - cand.balance
    let p_savings := if 0 < leftover then leftover * avalanche_t.monthly_rate else 0
    let hybrid_benefit := (freed_min + p_savings) * 12
    let avalanche_benefit := remaining * avalanche_t.monthly_rate * 12
    if avalanche_benefit < hybrid_benefit then
      let payment := cand.balance
      let daily_savings := round2 (payment * (cand.interest_rate / 100) / 365)
      some ({
        day := day
        mtype := "hybrid_kill"
        amount := payment
        source := fund
        destination := cand.name
        balance_before := cand.balance
        balance_after := 0
        funding_balance_after := bal - payment
        daily_interest_saved := daily_savings },
        (i, (0:ℚ)), payment)
    else hybridTry day fund avalanche_t remaining bal rest

/-- Phase 4.3 (lines 801-854): avalanche the remaining ammo over the active
debts sorted by APR descending. -/
def attackLoop (day : ℤ) (fund : String) :
    List (ℕ × DebtAccount) → ℚ → ℚ → List (ℕ × ℚ) × ℚ × ℚ × List Movement
  | [], remaining, bal => ([], remaining, bal, [])
  | (i, d) :: rest, remaining, bal =>
    if remaining ≤ 10 then ([], remaining, bal, [])
    else if d.balance ≤ 0 then attackLoop day fund rest remaining bal
    else
      let payment := min remaining d.balance
      let daily_savings := round2 (payment * (d.interest_rate / 100) / 365)
      let mv : Movement := {
        day := day
        mtype := "attack"
        amount := payment
        source := fund
        destination := d.name
        balance_before := d.balance
        balance_after := d.balance - payment
        funding_balance_after := bal - payment
        daily_interest_saved := daily_savings }
      let r := attackLoop day fund rest (remaining - payment) (bal - payment)
      ((i, d.balance - payment) :: r.1, r.2.1, r.2.2.1, mv :: r.2.2.2)

/-- Mutable state threaded through the day loop of `generate_action_plan`. -/
structure PlanState where
  sim_debts : List DebtAccount
  sim_weapons : List VelocityWeapon
  sim_balance : ℚ
  chunk_months : List (ℤ × ℤ)
  deriving Inhabited

/-- Phase 3 wrapper (lines 586-663): at most one chunk per calendar month,
tried on an income day with a non-empty weapon list. -/
def chunkPhase (day : ℤ) (debts1 : List DebtAccount) (bal2 : ℚ)
    (weapons : List VelocityWeapon) (chunk_months : List (ℤ × ℤ))
    (month_key : ℤ × ℤ) (income_today : Bool) :
    List DebtAccount × List VelocityWeapon × List (ℤ × ℤ) × List Movement :=
  if !weapons.isEmpty && income_today && !(chunk_months.contains month_key) then
    match chunkTry day debts1 bal2
        (sortKey (fun p => p.2.interest_rate) weapons.enum) with
    | some (mv, du, wu) =>
      (updBal debts1 du.1 du.2, updWBal weapons wu.1 wu.2,
        chunk_months.concat month_key, [mv])
    | none => (debts1, weapons, chunk_months, [])
  else (debts1, weapons, chunk_months, [])

/-- Phase 4.2 wrapper (lines 737-799): hybrid kill of the first worthwhile
candidate when more than one debt is active. -/
def hybridPhase (day : ℤ) (fund : String) (debts3 : List DebtAccount)
    (rem bal : ℚ) : List DebtAccount × ℚ × ℚ × List Movement :=
  if 10 < rem then
    match debts3.enum.filter (fun p => decide (0 < p.2.balance)) with
    | [] => (debts3, rem, bal, [])
    | e :: es =>
      if 0 < es.length then
        let avalanche_t := (maxByRate e es).2
        let killable := (e :: es).filter (fun p => decide (p.2.balance ≤ rem) &&
          !(p.2.name == avalanche_t.name))
        match hybridTry day fund avalanche_t rem bal
            (sortKey (fun p => p.2.balance) killable) with
        | some (mv, du, pay) => (updBal debts3 du.1 du.2, rem - pay, bal - pay, [mv])
        | none => (debts3, rem, bal, [])
      else (debts3, rem, bal, [])
  else (debts3, rem, bal, [])

/-- Phase 4.3 wrapper (lines 801-854): avalanche the leftover ammo. -/
def avalanchePhase (day : ℤ) (fund : String) (debts4 : List DebtAccount)
    (rem bal : ℚ) : List DebtAccount × ℚ × List Movement :=
  if 10 < rem then
    let rem_debts := sortKey (fun p => -(p.2.interest_rate))
      (debts4.enum.filter (fun p => decide (0 < p.2.balance)))
    let a := attackLoop day fund rem_debts rem bal
    (applyUpdates debts4 a.1, a.2.2.1, a.2.2.2)
  else (debts4, bal, [])

/-- Phase 4 wrapper (lines 665-854): float kills, hybrid kill, avalanche —
run only when the funding balance exceeds the shield by more than $10. -/
def attackPhase (day : ℤ) (fund : String) (cur : Date) (shield : ℚ)
    (debts2 : List DebtAccount) (bal2 : ℚ) : List DebtAccount × ℚ × List Movement :=
  let attack_funds := bal2 - shield
  if 10 < attack_funds then
    let revolving := debts2.enum.filter (fun p => decide (0 < p.2.balance) &&
      p.2.is_revolving && decide (0 < p.2.due_day) &&
      decide (daysUntilDue p.2.due_day cur ≤ 25))
    let f := floatLoop day fund (sortKey (fun p => p.2.balance) revolving)
      attack_funds bal2
    let debts3 := applyUpdates debts2 f.1
    let hy := hybridPhase day fund debts3 f.2.1 f.2.2.1
    let av := avalanchePhase day fund hy.1 hy.2.1 hy.2.2.1
    (av.1, av.2.1, f.2.2.2 ++ hy.2.2.2 ++ av.2.2)
  else (debts2, bal2, [])

/-- One simulated day of `generate_action_plan` (lines 524-856): minimum
payments, incomes, at most one velocity chunk per calendar month on an income
day, then the three-phase attack. -/
def planDay (fund : String) (shield : ℚ) (incomes : List CashflowTactical)
    (cur : Date) (st : PlanState) : PlanState × List Movement :=
  let day := cur.day
  let p1 := planMinPayments day fund st.sim_debts st.sim_balance
  let p2 := planIncomes day fund incomes p1.2.1
  let month_key := (cur.year, cur.month)
  let income_today := incomes.any (fun inc => inc.day_of_month == day)
  let p3 := chunkPhase day p1.1 p2.1 st.sim_weapons st.chunk_months month_key
    income_today
  let p4 := attackPhase day fund cur shield p3.1 p2.1
  ({ sim_debts := p4.1, sim_weapons := p3.2.1, sim_balance := p4.2.1,
     chunk_months := p3.2.2.1 },
    p1.2.2 ++ p2.2 ++ p3.2.2.2 ++ p4.2.2)

/-- The `while current <= end_date` day loop (62-day horizon: 63 iterations). -/
def planLoop (fund : String) (shield : ℚ) (incomes : List CashflowTactical) :
    ℕ → Date → PlanState → PlanState × List Movement
  | 0, _, st => (st, [])
  | n + 1, cur, st =>
    let d := planDay fund shield incomes cur st
    let r := planLoop fund shield incomes n (nextDay cur) d.1
    (r.1, d.2 ++ r.2)

/-- The clone comprehension at lines 491-500 (no `closing_day`; dataclass
defaults for the rest). -/
def cloneForPlan (d : DebtAccount) : DebtAccount :=
  { name := d.name, balance := d.balance, interest_rate := d.interest_rate,
    min_payment := d.min_payment, due_day := d.due_day,
    debt_subtype := d.debt_subtype, credit_limit := d.credit_limit }

/-- The weapon clone comprehension at lines 502-509. -/
def cloneWeapon (w : VelocityWeapon) : VelocityWeapon :=
  { name := w.name, balance := w.balance, credit_limit := w.credit_limit,
    interest_rate := w.interest_rate, weapon_type := w.weapon_type }

/-- `generate_action_plan` (lines 466-858), with `date.today()` lifted to the
`today` parameter. -/
def generate_action_plan (today : Date) (debts : List DebtAccount)
    (cashflows : List CashflowTactical) (checking_balance : ℚ)
    (funding_account_name : String := "Chase Cuenta") (shield_target : ℚ := 1000)
    (weapons : List VelocityWeapon := []) : List Movement :=
  let sim_debts0 := (debts.filter (fun d => decide (0 < d.balance))).map cloneForPlan
  let sim_weapons := (weapons.filter (fun w => decide (500 < w.available_credit))).map
    cloneWeapon
  let sim_debts := sortKey (fun d => -(d.interest_rate)) sim_debts0
  let incomes := cashflows.filter (fun cf => cf.category == "income")
  (planLoop funding_account_name shield_target incomes 63 today
    { sim_debts := sim_debts, sim_weapons := sim_weapons,
      sim_balance := checking_balance, chunk_months := [] }).2

/-- What C8 asserts of every `velocity_chunk` movement: strictly positive
arbitrage spread (weapon APR strictly below target APR), an amount of
`min(available_credit, target balance, 15000)` for an available credit of at
least $500, and the $500 chunk floor. -/
def ChunkOk (mv : Movement) : Prop :=
  mv.mtype = "velocity_chunk" →
    mv.weapon_apr < mv.target_apr ∧
    mv.arbitrage_spread = mv.target_apr - mv.weapon_apr ∧
    0 < mv.arbitrage_spread ∧
    500 ≤ mv.amount ∧
    ∃ avail : ℚ, 500 ≤ avail ∧ mv.amount = min (min avail mv.balance_before) 15000

theorem planMinPayments_types (day : ℤ) (fund : String) :
    ∀ (ds : List DebtAccount) (bal : ℚ),
      ∀ mv ∈ (planMinPayments day fund ds bal).2.2, mv.mtype = "min_payment" := by
  intro ds
  induction ds with
  | nil => intro bal mv hmv; simp [planMinPayments] at hmv
  | cons d rest ih =>
    intro bal mv hmv
    simp only [planMinPayments] at hmv
    split_ifs at hmv with h1 h2 h3
    · exact ih bal mv hmv
    · rcases List.mem_cons.mp hmv with rfl | hmem
      · rfl
      · exact ih _ mv hmem
    · exact ih bal mv hmv
    · exact ih bal mv hmv

theorem planIncomes_types (day : ℤ) (fund : String) :
    ∀ (cfs : List CashflowTactical) (bal : ℚ),
      ∀ mv ∈ (planIncomes day fund cfs bal).2, mv.mtype = "income" := by
  intro cfs
  induction cfs with
  | nil => intro bal mv hmv; simp [planIncomes] at hmv
  | cons c rest ih =>
    intro bal mv hmv
    rw [planIncomes] at hmv
    split_ifs at hmv with h1
    · rcases List.mem_cons.mp hmv with rfl | hmem
      · rfl
      · exact ih _ mv hmem
    · exact ih bal mv hmv

theorem floatLoop_types (day : ℤ) (fund : String) :
    ∀ (l : List (ℕ × DebtAccount)) (remaining bal : ℚ),
      ∀ mv ∈ (floatLoop day fund l remaining bal).2.2.2, mv.mtype = "float_kill" := by
  intro l
  induction l with
  | nil => intro remaining bal mv hmv; simp [floatLoop] at hmv
  | cons p rest ih =>
    intro remaining bal mv hmv
    obtain ⟨i, d⟩ := p
    rw [floatLoop] at hmv
    split_ifs at hmv with h1 h2
    · simp at hmv
    · exact ih _ _ mv hmv
    · rcases List.mem_cons.mp hmv with rfl | hmem
      · rfl
      · exact ih _ _ mv hmem

theorem attackLoop_types (day : ℤ) (fund : String) :
    ∀ (l : List (ℕ × DebtAccount)) (remaining bal : ℚ),
      ∀ mv ∈ (attackLoop day fund l remaining bal).2.2.2, mv.mtype = "attack" := by
  intro l
  induction l with
  | nil => intro remaining bal mv hmv; simp [attackLoop] at hmv
  | cons p rest ih =>
    intro remaining bal mv hmv
    obtain ⟨i, d⟩ := p
    rw [attackLoop] at hmv
    split_ifs at hmv with h1 h2
    · simp at hmv
    · exact ih _ _ mv hmv
    · rcases List.mem_cons.mp hmv with rfl | hmem
      · rfl
      · exact ih _ _ mv hmem

theorem hybridTry_types (day : ℤ) (fund : String) (t : DebtAccount)
    (remaining bal : ℚ) :
    ∀ (l : List (ℕ × DebtAccount)) {mv du pay},
      hybridTry day fund t remaining bal l = some (mv, du, pay) →
      mv.mtype = "hybrid_kill" := by
  intro l
  induction l with
  | nil => intro mv du pay h; simp [hybridTry] at h
  | cons p rest ih =>
    intro mv du pay h
    obtain ⟨i, cand⟩ := p
    simp only [hybridTry] at h
    split_ifs at h
    all_goals first
      | exact ih h
      | (cases h; rfl)

theorem maxByRate_mem (e : ℕ × DebtAccount) (l : List (ℕ × DebtAccount)) :
    maxByRate e l ∈ e :: l := by
  unfold maxByRate
  induction l generalizing e with
  | nil => simp
  | cons p rest ih =>
    rw [List.foldl_cons]
    rcases List.mem_cons.mp
        (ih (if e.2.interest_rate < p.2.interest_rate then p else e)) with heq | hmem
    · rw [heq]
      split
      · exact List.mem_cons_of_mem _ (List.mem_cons_self _ _)
      · exact List.mem_cons_self _ _
    · exact List.mem_cons_of_mem _ (List.mem_cons_of_mem _ hmem)

theorem chunkTry_some (day : ℤ) (debts : List DebtAccount) (bal : ℚ) :
    ∀ (l : List (ℕ × VelocityWeapon)) {mv : Movement} {du wu : ℕ × ℚ},
      chunkTry day debts bal l = some (mv, du, wu) →
      mv.mtype = "velocity_chunk" ∧ mv.weapon_apr < mv.target_apr ∧
      mv.arbitrage_spread = mv.target_apr - mv.weapon_apr ∧ 500 ≤ mv.amount ∧
      ∃ avail : ℚ, 500 ≤ avail ∧ mv.amount = min (min avail mv.balance_before) 15000 := by
  intro l
  induction l with
  | nil => intro mv du wu h; simp [chunkTry] at h
  | cons p rest ih =>
    intro mv du wu h
    obtain ⟨wi, w⟩ := p
    rw [chunkTry] at h
    split_ifs at h with h1
    · exact ih h
    · cases hfil : debts.enum.filter (chunkEligible w) with
      | nil => rw [hfil] at h; exact ih h
      | cons e es =>
        rw [hfil] at h
        dsimp only at h
        split_ifs at h with h2
        · exact ih h
        · have hmemt : maxByRate e es ∈ e :: es := maxByRate_mem e es
          have hmemf : maxByRate e es ∈ debts.enum.filter (chunkEligible w) := by
            rw [hfil]; exact hmemt
          have helig := (List.mem_filter.mp hmemf).2
          have hlt : w.interest_rate < (maxByRate e es).2.interest_rate := by
            unfold chunkEligible at helig
            simp only [Bool.and_eq_true, decide_eq_true_eq] at helig
            exact helig.1.1.2
          cases h
          refine ⟨rfl, hlt, rfl, not_lt.mp h2, w.available_credit, not_lt.mp h1, rfl⟩

theorem chunkok_of_type {mv : Movement} {s : String} (hs : mv.mtype = s)
    (hne : s ≠ "velocity_chunk") : ChunkOk mv :=
  fun hc => absurd (hs.symm.trans hc) hne


theorem chunkPhase_chunkok (day : ℤ) (debts1 : List DebtAccount) (bal2 : ℚ)
    (weapons : List VelocityWeapon) (chunk_months : List (ℤ × ℤ))
    (month_key : ℤ × ℤ) (income_today : Bool) :
    ∀ mv ∈ (chunkPhase day debts1 bal2 weapons chunk_months month_key
      income_today).2.2.2, ChunkOk mv := by
  intro mv hmv
  simp only [chunkPhase] at hmv
  split at hmv
  · split at hmv
    · next mv1 du wu heq =>
      simp only [List.mem_singleton] at hmv
      subst hmv
      intro _
      obtain ⟨hlt, hspr, hamt, hex⟩ := (chunkTry_some _ _ _ _ heq).2
      exact ⟨hlt, hspr, by rw [hspr]; linarith, hamt, hex⟩
    · simp at hmv
  · simp at hmv

theorem hybridPhase_types (day : ℤ) (fund : String) (debts3 : List DebtAccount)
    (rem bal : ℚ) :
    ∀ mv ∈ (hybridPhase day fund debts3 rem bal).2.2.2, mv.mtype = "hybrid_kill" := by
  intro mv hmv
  simp only [hybridPhase] at hmv
  split at hmv
  · split at hmv
    · simp at hmv
    · split at hmv
      · split at hmv
        · next heq =>
          simp only [List.mem_singleton] at hmv
          subst hmv
          exact hybridTry_types _ _ _ _ _ _ heq
        · simp at hmv
      · simp at hmv
  · simp at hmv

theorem avalanchePhase_types (day : ℤ) (fund : String) (debts4 : List DebtAccount)
    (rem bal : ℚ) :
    ∀ mv ∈ (avalanchePhase day fund debts4 rem bal).2.2, mv.mtype = "attack" := by
  intro mv hmv
  simp only [avalanchePhase] at hmv
  split at hmv
  · exact attackLoop_types _ _ _ _ _ mv hmv
  · simp at hmv

theorem attackPhase_chunkok (day : ℤ) (fund : String) (cur : Date) (shield : ℚ)
    (debts2 : List DebtAccount) (bal2 : ℚ) :
    ∀ mv ∈ (attackPhase day fund cur shield debts2 bal2).2.2, ChunkOk mv := by
  intro mv hmv
  simp only [attackPhase] at hmv
  split at hmv
  · simp only [List.mem_append] at hmv
    rcases hmv with (h | h) | h
    · exact chunkok_of_type (floatLoop_types _ _ _ _ _ mv h) (by decide)
    · exact chunkok_of_type (hybridPhase_types _ _ _ _ _ mv h) (by decide)
    · exact chunkok_of_type (avalanchePhase_types _ _ _ _ _ mv h) (by decide)
  · simp at hmv

theorem planDay_chunkok (fund : String) (shield : ℚ) (incomes : List CashflowTactical)
    (cur : Date) (st : PlanState) :
    ∀ mv ∈ (planDay fund shield incomes cur st).2, ChunkOk mv := by
  intro mv hmv
  simp only [planDay, List.mem_append] at hmv
  rcases hmv with ((h | h) | h) | h
  · exact chunkok_of_type (planMinPayments_types _ _ _ _ mv h) (by decide)
  · exact chunkok_of_type (planIncomes_types _ _ _ _ mv h) (by decide)
  · exact chunkPhase_chunkok _ _ _ _ _ _ _ mv h
  · exact attackPhase_chunkok _ _ _ _ _ _ mv h

theorem planLoop_chunkok (fund : String) (shield : ℚ) (incomes : List CashflowTactical) :
    ∀ (n : ℕ) (cur : Date) (st : PlanState),
      ∀ mv ∈ (planLoop fund shield incomes n cur st).2, ChunkOk mv := by
  intro n
  induction n with
  | zero => intro cur st mv hmv; simp [planLoop] at hmv
  | succ n ih =>
    intro cur st mv hmv
    rw [planLoop] at hmv
    rcases List.mem_append.mp hmv with h | h
    · exact planDay_chunkok _ _ _ _ _ mv h
    · exact ih _ _ mv h

/-! ### No chunk without a positive arbitrage spread -/

/-- The debts of a simulation state draw their APRs from the caller's debts. -/
def RatesSub (l0 l : List DebtAccount) : Prop :=
  ∀ d ∈ l, ∃ d0 ∈ l0, d.interest_rate = d0.interest_rate

/-- The weapons of a simulation state draw their APRs from the caller's
weapons. -/
def WRatesSub (w0 w : List VelocityWeapon) : Prop :=
  ∀ x ∈ w, ∃ y ∈ w0, x.interest_rate = y.interest_rate

theorem enum_snd_mem {α : Type} {l : List α} {p : ℕ × α} (h : p ∈ l.enum) :
    p.2 ∈ l := by
  obtain ⟨i, x⟩ := p
  exact List.getElem?_mem (List.mk_mem_enum_iff_getElem?.mp h)

theorem ratesSub_updBal {l0 l : List DebtAccount} (h : RatesSub l0 l) (i : ℕ) (b : ℚ) :
    RatesSub l0 (updBal l i b) := by
  intro d hd
  unfold updBal at hd
  cases hg : l[i]? with
  | none => rw [hg] at hd; exact h d hd
  | some x =>
    rw [hg] at hd
    rcases List.mem_or_eq_of_mem_set hd with hmem | rfl
    · exact h d hmem
    · exact h x (List.getElem?_mem hg)

theorem ratesSub_applyUpdates {l0 : List DebtAccount} :
    ∀ (ups : List (ℕ × ℚ)) {l : List DebtAccount}, RatesSub l0 l →
      RatesSub l0 (applyUpdates l ups) := by
  intro ups
  induction ups with
  | nil => intro l h; exact h
  | cons u rest ih =>
    intro l h
    rw [applyUpdates, List.foldl_cons]
    exact ih (ratesSub_updBal h u.1 u.2)

theorem wratesSub_updWBal {w0 w : List VelocityWeapon} (h : WRatesSub w0 w)
    (i : ℕ) (b : ℚ) : WRatesSub w0 (updWBal w i b) := by
  intro x hx
  unfold updWBal at hx
  cases hg : w[i]? with
  | none => rw [hg] at hx; exact h x hx
  | some y =>
    rw [hg] at hx
    rcases List.mem_or_eq_of_mem_set hx with hmem | rfl
    · exact h x hmem
    · exact h y (List.getElem?_mem hg)

theorem ratesSub_planMinPayments (day : ℤ) (fund : String) {l0 : List DebtAccount} :
    ∀ (ds : List DebtAccount) (bal : ℚ), RatesSub l0 ds →
      RatesSub l0 (planMinPayments day fund ds bal).1 := by
  intro ds
  induction ds with
  | nil => intro bal h; simpa [planMinPayments] using h
  | cons d rest ih =>
    intro bal h
    have hd := h d (List.mem_cons_self _ _)
    have hrest : RatesSub l0 rest := fun x hx => h x (List.mem_cons_of_mem _ hx)
    intro x hx
    simp only [planMinPayments] at hx
    split_ifs at hx <;>
      rcases List.mem_cons.mp hx with rfl | hmem
    · exact hd
    · exact ih bal hrest x hmem
    · exact hd
    · exact ih _ hrest x hmem
    · exact hd
    · exact ih bal hrest x hmem
    · exact hd
    · exact ih bal hrest x hmem

theorem ratesSub_hybridPhase (day : ℤ) (fund : String) {l0 : List DebtAccount}
    {debts3 : List DebtAccount} (h : RatesSub l0 debts3) (rem bal : ℚ) :
    RatesSub l0 (hybridPhase day fund debts3 rem bal).1 := by
  simp only [hybridPhase]
  split
  · split
    · exact h
    · split
      · split
        · exact ratesSub_updBal h _ _
        · exact h
      · exact h
  · exact h

theorem ratesSub_avalanchePhase (day : ℤ) (fund : String) {l0 : List DebtAccount}
    {debts4 : List DebtAccount} (h : RatesSub l0 debts4) (rem bal : ℚ) :
    RatesSub l0 (avalanchePhase day fund debts4 rem bal).1 := by
  simp only [avalanchePhase]
  split
  · exact ratesSub_applyUpdates _ h
  · exact h

theorem ratesSub_attackPhase (day : ℤ) (fund : String) (cur : Date) (shield : ℚ)
    {l0 : List DebtAccount} {debts2 : List DebtAccount} (h : RatesSub l0 debts2)
    (bal2 : ℚ) : RatesSub l0 (attackPhase day fund cur shield debts2 bal2).1 := by
  simp only [attackPhase]
  split
  · exact ratesSub_avalanchePhase _ _
      (ratesSub_hybridPhase _ _ (ratesSub_applyUpdates _ h) _ _) _ _
  · exact h

theorem chunkTry_none (day : ℤ) (debts : List DebtAccount) (bal : ℚ) :
    ∀ (l : List (ℕ × VelocityWeapon)),
      (∀ q ∈ l, ∀ p ∈ debts.enum, ¬ (q.2.interest_rate < p.2.interest_rate)) →
      chunkTry day debts bal l = none := by
  intro l
  induction l with
  | nil => intro _; rfl
  | cons q rest ih =>
    intro hno
    obtain ⟨wi, w⟩ := q
    have hrest : ∀ q ∈ rest, ∀ p ∈ debts.enum,
        ¬ (q.2.interest_rate < p.2.interest_rate) :=
      fun q hq => hno q (List.mem_cons_of_mem _ hq)
    rw [chunkTry]
    split_ifs with h1
    · exact ih hrest
    · have hfil : debts.enum.filter (chunkEligible w) = [] := by
        rw [List.filter_eq_nil_iff]
        intro p hp hc
        unfold chunkEligible at hc
        simp only [Bool.and_eq_true, decide_eq_true_eq] at hc
        exact hno (wi, w) (List.mem_cons_self _ _) p hp hc.1.1.2
      rw [hfil]
      exact ih hrest

theorem chunkPhase_none (day : ℤ) (debts1 : List DebtAccount) (bal2 : ℚ)
    (weapons : List VelocityWeapon) (chunk_months : List (ℤ × ℤ))
    (month_key : ℤ × ℤ) (income_today : Bool)
    (hno : ∀ w ∈ weapons, ∀ p ∈ debts1.enum,
      ¬ (w.interest_rate < p.2.interest_rate)) :
    chunkPhase day debts1 bal2 weapons chunk_months month_key income_today =
      (debts1, weapons, chunk_months, []) := by
  simp only [chunkPhase]
  split
  · rw [chunkTry_none day debts1 bal2 _ ?_]
    intro q hq
    have hqm : q.2 ∈ weapons := by
      have := (sortKey_perm (fun p : ℕ × VelocityWeapon => p.2.interest_rate)
        weapons.enum).mem_iff.mp hq
      exact enum_snd_mem this
    exact hno q.2 hqm
  · rfl

theorem attackPhase_no_chunk (day : ℤ) (fund : String) (cur : Date) (shield : ℚ)
    (debts2 : List DebtAccount) (bal2 : ℚ) :
    ∀ mv ∈ (attackPhase day fund cur shield debts2 bal2).2.2,
      mv.mtype ≠ "velocity_chunk" := by
  intro mv hmv
  simp only [attackPhase] at hmv
  split at hmv
  · simp only [List.mem_append] at hmv
    rcases hmv with (h | h) | h
    · rw [floatLoop_types _ _ _ _ _ mv h]; decide
    · rw [hybridPhase_types _ _ _ _ _ mv h]; decide
    · rw [avalanchePhase_types _ _ _ _ _ mv h]; decide
  · simp at hmv

theorem planDay_no_chunk (fund : String) (shield : ℚ)
    (incomes : List CashflowTactical) (cur : Date) (st : PlanState)
    {debts0 : List DebtAccount} {weapons0 : List VelocityWeapon}
    (hd : RatesSub debts0 st.sim_debts) (hw : WRatesSub weapons0 st.sim_weapons)
    (hno : ∀ w ∈ weapons0, ∀ d ∈ debts0, d.interest_rate ≤ w.interest_rate) :
    (∀ mv ∈ (planDay fund shield incomes cur st).2, mv.mtype ≠ "velocity_chunk") ∧
    RatesSub debts0 (planDay fund shield incomes cur st).1.sim_debts ∧
    WRatesSub weapons0 (planDay fund shield incomes cur st).1.sim_weapons := by
  have hd1 : RatesSub debts0
      (planMinPayments cur.day fund st.sim_debts st.sim_balance).1 :=
    ratesSub_planMinPayments _ _ _ _ hd
  have hnop : ∀ w ∈ st.sim_weapons,
      ∀ p ∈ (planMinPayments cur.day fund st.sim_debts st.sim_balance).1.enum,
        ¬ (w.interest_rate < p.2.interest_rate) := by
    intro w hwm p hp hlt
    obtain ⟨w0, hw0, hweq⟩ := hw w hwm
    obtain ⟨d0, hd0, hdeq⟩ := hd1 p.2 (enum_snd_mem hp)
    rw [hweq, hdeq] at hlt
    exact absurd hlt (not_lt.mpr (hno w0 hw0 d0 hd0))
  have hcp := chunkPhase_none cur.day
    (planMinPayments cur.day fund st.sim_debts st.sim_balance).1
    (planIncomes cur.day fund incomes
      (planMinPayments cur.day fund st.sim_debts st.sim_balance).2.1).1
    st.sim_weapons st.chunk_months (cur.year, cur.month)
    (incomes.any (fun inc => inc.day_of_month == cur.day)) hnop
  refine ⟨?_, ?_, ?_⟩
  · intro mv hmv
    simp only [planDay, List.mem_append] at hmv
    rw [hcp] at hmv
    rcases hmv with ((h | h) | h) | h
    · rw [planMinPayments_types _ _ _ _ mv h]; decide
    · rw [planIncomes_types _ _ _ _ mv h]; decide
    · simp at h
    · exact attackPhase_no_chunk _ _ _ _ _ _ mv h
  · simp only [planDay]
    rw [hcp]
    exact ratesSub_attackPhase _ _ _ _ hd1 _
  · simp only [planDay]
    rw [hcp]
    exact hw

theorem planLoop_no_chunk (fund : String) (shield : ℚ)
    (incomes : List CashflowTactical) {debts0 : List DebtAccount}
    {weapons0 : List VelocityWeapon}
    (hno : ∀ w ∈ weapons0, ∀ d ∈ debts0, d.interest_rate ≤ w.interest_rate) :
    ∀ (n : ℕ) (cur : Date) (st : PlanState),
      RatesSub debts0 st.sim_debts → WRatesSub weapons0 st.sim_weapons →
      ∀ mv ∈ (planLoop fund shield incomes n cur st).2,
        mv.mtype ≠ "velocity_chunk" := by
  intro n
  induction n with
  | zero => intro cur st _ _ mv hmv; simp [planLoop] at hmv
  | succ n ih =>
    intro cur st hd hw mv hmv
    rw [planLoop] at hmv
    obtain ⟨hday, hd', hw'⟩ := planDay_no_chunk fund shield incomes cur st hd hw hno
    rcases List.mem_append.mp hmv with h | h
    · exact hday mv h
    · exact ih _ _ hd' hw' mv h

/-- C8: every `velocity_chunk` movement emitted by `generate_action_plan`
carries a strictly positive arbitrage spread (weapon APR strictly below the
target APR), comes from a weapon with at least $500 of available credit, and
deploys `min(available_credit, target balance, $15000)` (itself at least
$500); and when no debt's APR exceeds any weapon's APR, no `velocity_chunk`
movement is emitted at all. -/
theorem action_plan_chunk_spec (today : Date) (debts : List DebtAccount)
    (cashflows : List CashflowTactical) (checking_balance : ℚ) (fund : String)
    (shield : ℚ) (weapons : List VelocityWeapon) (mv : Movement)
    (hmv : mv ∈ generate_action_plan today debts cashflows checking_balance
      fund shield weapons) :
    ChunkOk mv ∧
    ((∀ w ∈ weapons, ∀ d ∈ debts, d.interest_rate ≤ w.interest_rate) →
      mv.mtype ≠ "velocity_chunk") := by
  simp only [generate_action_plan] at hmv
  constructor
  · exact planLoop_chunkok _ _ _ _ _ _ mv hmv
  · intro hno
    refine planLoop_no_chunk fund shield _ hno 63 today _ ?_ ?_ mv hmv
    · intro d hdm
      have hdm' := (sortKey_perm (fun d : DebtAccount => -(d.interest_rate))
        _).mem_iff.mp hdm
      obtain ⟨d0, hd0, rfl⟩ := List.mem_map.mp hdm'
      exact ⟨d0, (List.mem_filter.mp hd0).1, rfl⟩
    · intro w hwm
      obtain ⟨w0, hw0, rfl⟩ := List.mem_map.mp hwm
      exact ⟨w0, (List.mem_filter.mp hw0).1, rfl⟩

def c8WitnessMv : Movement where
  day := 5
  mtype := "income"
  amount := 3000
  source := "Pay"
  destination := "Chase"
  funding_balance_after := 5000

def c8WitnessCf : CashflowTactical where
  name := "Pay"
  amount := 3000
  day_of_month := 5
  category := "income"

attribute [local semireducible] Rat.add Rat.mul Rat.sub Rat.inv in
set_option maxRecDepth 1000000 in
theorem action_plan_chunk_spec_witness :
    ChunkOk c8WitnessMv ∧
    ((∀ w ∈ ([] : List VelocityWeapon), ∀ d ∈ ([] : List DebtAccount),
        d.interest_rate ≤ w.interest_rate) →
      c8WitnessMv.mtype ≠ "velocity_chunk") :=
  action_plan_chunk_spec ⟨2026, 1, 1⟩ [] [c8WitnessCf]
    2000 "Chase" 1000 [] c8WitnessMv (by decide)
